import Mathlib

/-!
Shallow embedding of the ashell output/surface lifecycle manager and menu
state machine (src/outputs.rs) together with the system-info view fragments
(src/modules/system_info_components, src/modules/system_info_new.rs).

Rust mutable state is made explicit: every operation returns the updated
registry together with the list of compositor requests it emits (the iced
Tasks of the source).  iced window Ids and Wayland output handles become
natural numbers; the global Id::unique counter is threaded through the
registry state; f64 values become rationals; Rust Strings become lists of
characters so that the substring matching of the configuration filter can
be stated exactly.
-/

namespace Ashell

open scoped List

/-- Modelled from the spec: src/menu.rs is not among the provided sources.
The spec gives MenuKind as the closed set Updates, Tray(name), Settings,
MediaPlayer, SystemInfo. -/
inductive MenuType where
  | Updates
  | Tray (name : List Char)
  | Settings
  | MediaPlayer
  | SystemInfo
deriving DecidableEq, Repr

/-- Modelled from the spec: src/position_button.rs is not among the provided
sources; the anchor reference is an opaque value that is only stored. -/
structure ButtonUIRef where
  ref : Nat
deriving DecidableEq, Repr

/-- Modelled from the spec: src/config.rs is not among the provided sources;
the spec gives a bar position of Top or Bottom. -/
inductive Position where
  | Top
  | Bottom
deriving DecidableEq, Repr

/-- Visual style of a bar (AppearanceStyle in src/config.rs, used by
src/outputs.rs get_height). -/
inductive AppearanceStyle where
  | Solid
  | Gradient
  | Islands
deriving DecidableEq, Repr

/-- Modelled from the spec: the AppearanceStyle::default() value used when a
bar configuration has no appearance override.  None of the claims depends on
which style is the default. -/
def defaultStyle : AppearanceStyle := AppearanceStyle.Islands

/-- Appearance override carried by a bar configuration; only the style field
is inspected by src/outputs.rs, the remaining fields are an opaque payload. -/
structure Appearance where
  style : AppearanceStyle
  payload : Nat
deriving DecidableEq, Repr

/-- Bar configuration (BarConfig in src/config.rs): position, optional
appearance override, and the remaining fields (module layout and so on) as
an opaque payload that still participates in equality, mirroring the
PartialEq comparison done by Outputs::sync. -/
structure BarConfig where
  position : Position
  appearance : Option Appearance
  payload : Nat
deriving DecidableEq, Repr

/-- Display-name filter (config::Outputs): All, Active, or a list of name
substrings (Targets). -/
inductive ConfigOutputs where
  | All
  | Active
  | Targets (request_outputs : List (List Char))
deriving DecidableEq, Repr

/-- Keyboard interactivity modes that src/outputs.rs requests. -/
inductive KeyboardInteractivity where
  | kNone
  | kOnDemand
deriving DecidableEq, Repr

/-- A compositor-bound request (the iced Tasks the source batches and
returns): layer-surface creation for a bar or a menu, destruction, resize,
exclusive-zone update, keyboard-interactivity update, and the menu-surface
update emitted by the menu controller itself. -/
inductive Request where
  | createBar (id : Nat) (height : ℚ) (position : Position) (output : Option Nat)
  | createMenu (id : Nat) (output : Option Nat)
  | destroySurface (id : Nat)
  | setSize (id : Nat) (height : ℚ)
  | setExclusiveZone (id : Nat) (height : ℚ)
  | setKeyboardInteractivity (id : Nat) (k : KeyboardInteractivity)
  | menuSurfaceUpdate (id : Nat)
deriving DecidableEq, Repr

/-- Per-pair menu state (struct Menu of src/menu.rs): the id of the menu
layer surface and the open-menu slot. -/
structure Menu where
  id : Nat
  menu_info : Option (MenuType × ButtonUIRef)
deriving DecidableEq, Repr

/-- Menu::new. -/
def Menu.new (id : Nat) : Menu := { id := id, menu_info := none }

/-- Modelled from the spec: Menu::toggle of the absent src/menu.rs.  If the
slot holds the same kind the menu closes, otherwise it opens with the given
kind and anchor; the menu surface is resized/repositioned, which we record
as a menuSurfaceUpdate request on the menu surface id.  Keyboard requests
are issued by Outputs, not here: the spec scopes keyboard side effects to
the bar surface and gives the menu surface no independent keyboard state. -/
def Menu.toggle (m : Menu) (menu_type : MenuType) (button_ui_ref : ButtonUIRef) :
    Menu × List Request :=
  match m.menu_info with
  | some (mt, _) =>
      if mt = menu_type then
        ({ m with menu_info := none }, [Request.menuSurfaceUpdate m.id])
      else
        ({ m with menu_info := some (menu_type, button_ui_ref) },
          [Request.menuSurfaceUpdate m.id])
  | none =>
      ({ m with menu_info := some (menu_type, button_ui_ref) },
        [Request.menuSurfaceUpdate m.id])

/-- Modelled from the spec: Menu::close of the absent src/menu.rs:
unconditionally transitions to Closed; a surface update is emitted only when
a menu was actually open. -/
def Menu.close (m : Menu) : Menu × List Request :=
  match m.menu_info with
  | some _ => ({ m with menu_info := none }, [Request.menuSurfaceUpdate m.id])
  | none => (m, [])

/-- Modelled from the spec: Menu::close_if of the absent src/menu.rs:
transitions to Closed only when the slot currently holds the given kind. -/
def Menu.close_if (m : Menu) (menu_type : MenuType) : Menu × List Request :=
  match m.menu_info with
  | some (mt, _) =>
      if mt = menu_type then
        ({ m with menu_info := none }, [Request.menuSurfaceUpdate m.id])
      else (m, [])
  | none => (m, [])

/-- ShellInfo of src/outputs.rs: bar surface id, owning bar configuration,
menu state, and scale factor. -/
structure ShellInfo where
  id : Nat
  config : BarConfig
  menu : Menu
  scale_factor : ℚ
deriving DecidableEq, Repr

/-- One registry entry: the (String, Vec of ShellInfo, Option of WlOutput)
triple stored in the Outputs vector. -/
structure Entry where
  name : List Char
  infos : List ShellInfo
  output : Option Nat
deriving DecidableEq, Repr

/-- The output registry (struct Outputs): the entry vector plus the state of
the ambient Id::unique counter from which fresh surface ids are drawn. -/
structure Outputs where
  entries : List Entry
  next : Nat
deriving DecidableEq, Repr

/-- Modelled from the spec: the crate-level HEIGHT constant (base bar
height) lives in the crate root, which is not among the provided sources.
No claim depends on its numeric value. -/
def HEIGHT : ℚ := 34

/-- Outputs::get_height: bar height is the base height minus a style
adjustment of 8 for Solid and Gradient (0 for Islands), scaled. -/
def get_height (style : AppearanceStyle) (scale_factor : ℚ) : ℚ :=
  (HEIGHT -
      (match style with
        | AppearanceStyle.Solid | AppearanceStyle.Gradient => (8 : ℚ)
        | AppearanceStyle.Islands => 0)) *
    scale_factor

/-- The style of a bar configuration as computed throughout src/outputs.rs:
the appearance override if present, the default style otherwise. -/
def styleOf (config : BarConfig) : AppearanceStyle :=
  (config.appearance.map Appearance.style).getD defaultStyle

/-- Outputs::create_output_layers: for each bar configuration allocate a bar
surface and a menu surface (two fresh ids), emit their creation requests,
and return the ShellInfo list.  The bar surface is created with the computed
height as its size and exclusive zone at the configured position; the menu
surface is a full-screen layer with no exclusive zone. -/
def create_output_layers (wl_output : Option Nat) (bar_configs : List BarConfig)
    (scale_factor : ℚ) (next : Nat) : List ShellInfo × List Request × Nat :=
  match bar_configs with
  | [] => ([], [], next)
  | config :: rest =>
      let id := next
      let style := styleOf config
      let height := get_height style scale_factor
      let menu_id := next + 1
      let r := create_output_layers wl_output rest scale_factor (next + 2)
      ({ id := id, config := config, menu := Menu.new menu_id,
          scale_factor := scale_factor } :: r.1,
        Request.createBar id height config.position wl_output ::
          Request.createMenu menu_id wl_output :: r.2.1,
        r.2.2)

/-- Rust str::contains, on character lists: the pattern occurs as a
contiguous substring (the empty pattern always matches). -/
def strContains : List Char → List Char → Bool
  | [], pat => pat.isEmpty
  | c :: s, pat => pat.isPrefixOf (c :: s) || strContains s pat

/-- Outputs::name_in_config: All matches every name, Active matches none,
Targets matches when some target is a substring of the name. -/
def name_in_config (name : List Char) (outputs : ConfigOutputs) : Bool :=
  match outputs with
  | ConfigOutputs.All => true
  | ConfigOutputs.Active => false
  | ConfigOutputs.Targets request_outputs =>
      request_outputs.any (fun output => strContains name output)

/-- Vec::swap_remove: replace the element at the index with the last element
and pop the last element. -/
def swapRemove (l : List α) (i : Nat) : List α :=
  match l.getLast? with
  | none => []
  | some last => (l.set i last).dropLast

/-- Find the first element satisfying the predicate and swap-remove it,
returning the element and the remaining vector, as the
iter().position + swap_remove idiom of the source does. -/
def removeAt? (l : List α) (p : α → Bool) : Option (α × List α) :=
  match l.findIdx? p with
  | none => none
  | some i =>
      match l[i]? with
      | none => none
      | some e => some (e, swapRemove l i)

/-- The destroy requests issued for one entry: both the bar and the menu
surface of every pair, in iteration order. -/
def destroyEntry (e : Entry) : List Request :=
  e.infos.flatMap (fun si => [Request.destroySurface si.id, Request.destroySurface si.menu.id])

/-- The name of the synthetic fallback entry. -/
def fallbackName : List Char := "Fallback".toList

/-- Outputs::add: on a matched name, create fresh layers for the display,
atomically replace any prior entry under the same name, and destroy and
remove the synthetic fallback entry if one exists; on an unmatched name,
record an empty entry that keeps the name-to-handle association. -/
def add (bar_configs : List BarConfig) (request_outputs : ConfigOutputs)
    (name : List Char) (wl_output : Nat) (scale_factor : ℚ) (s : Outputs) :
    Outputs × List Request :=
  if name_in_config name request_outputs then
    let r := create_output_layers (some wl_output) bar_configs scale_factor s.next
    let step1 :=
      match removeAt? s.entries (fun e => e.name == name) with
      | some (old, rest) => (rest, destroyEntry old)
      | none => (s.entries, [])
    let entries2 := step1.1 ++ [{ name := name, infos := r.1, output := some wl_output }]
    let step2 :=
      match removeAt? entries2 (fun e => e.output.isNone) with
      | some (old, rest) => (rest, destroyEntry old)
      | none => (entries2, [])
    ({ entries := step2.1, next := r.2.2 }, step1.2 ++ step2.2 ++ r.2.1)
  else
    ({ entries := s.entries ++ [{ name := name, infos := [], output := some wl_output }],
        next := s.next }, [])

/-- Outputs::remove: locate the owning entry by handle, destroy all its
pairs, and push back an emptied entry that retains the name and handle;
if no non-empty entry remains anywhere, create the synthetic fallback. -/
def remove (bar_configs : List BarConfig) (wl_output : Nat) (scale_factor : ℚ)
    (s : Outputs) : Outputs × List Request :=
  match removeAt? s.entries (fun e => e.output == some wl_output) with
  | some (old, rest) =>
      let destroys := destroyEntry old
      let entries1 := rest ++ [{ name := old.name, infos := [], output := old.output }]
      if entries1.any (fun e => !e.infos.isEmpty) then
        ({ entries := entries1, next := s.next }, destroys)
      else
        let r := create_output_layers none bar_configs scale_factor s.next
        ({ entries := entries1 ++ [{ name := fallbackName, infos := r.1, output := none }],
            next := r.2.2 }, destroys ++ r.2.1)
  | none => (s, [])

/-- Outputs::new: a single synthetic fallback entry holding one pair per
configured bar, created on the currently active output. -/
def Outputs.new (bar_configs : List BarConfig) (scale_factor : ℚ) :
    Outputs × List Request :=
  let r := create_output_layers none bar_configs scale_factor 0
  ({ entries := [{ name := fallbackName, infos := r.1, output := none }], next := r.2.2 },
    r.2.1)

/-- One step of the in-place reconciliation loop of Outputs::sync: for the
pair at index i, if a bar configuration exists at that index and differs (or
the scale factor differs), adopt it and emit a resize and an exclusive-zone
update computed from the new style and scale factor. -/
def syncInfo (bar_configs : List BarConfig) (scale_factor : ℚ) (i : Nat)
    (si : ShellInfo) : ShellInfo × List Request :=
  match bar_configs[i]? with
  | none => (si, [])
  | some config =>
      if si.config ≠ config ∨ si.scale_factor ≠ scale_factor then
        let height := get_height (styleOf config) scale_factor
        ({ si with config := config, scale_factor := scale_factor },
          [Request.setSize si.id height, Request.setExclusiveZone si.id height])
      else (si, [])

/-- The enumerate loop of the in-place phase, carrying the running index. -/
def syncInfos (bar_configs : List BarConfig) (scale_factor : ℚ) :
    Nat → List ShellInfo → List ShellInfo × List Request
  | _, [] => ([], [])
  | i, si :: rest =>
      let r1 := syncInfo bar_configs scale_factor i si
      let r2 := syncInfos bar_configs scale_factor (i + 1) rest
      (r1.1 :: r2.1, r1.2 ++ r2.2)

/-- In-place reconciliation of one entry. -/
def syncEntry (bar_configs : List BarConfig) (scale_factor : ℚ) (e : Entry) :
    Entry × List Request :=
  let r := syncInfos bar_configs scale_factor 0 e.infos
  ({ e with infos := r.1 }, r.2)

/-- The add loop of Outputs::sync: entries that are empty but match the
filter and have a known handle are re-attached; pairs without a handle are
skipped. -/
def addAll (bar_configs : List BarConfig) (request_outputs : ConfigOutputs)
    (scale_factor : ℚ) : List (List Char × Option Nat) → Outputs → Outputs × List Request
  | [], s => (s, [])
  | (name, some h) :: rest, s =>
      let r := add bar_configs request_outputs name h scale_factor s
      let r2 := addAll bar_configs request_outputs scale_factor rest r.1
      (r2.1, r.2 ++ r2.2)
  | (_, none) :: rest, s => addAll bar_configs request_outputs scale_factor rest s

/-- The remove loop of Outputs::sync. -/
def removeAll (bar_configs : List BarConfig) (scale_factor : ℚ) :
    List Nat → Outputs → Outputs × List Request
  | [], s => (s, [])
  | h :: rest, s =>
      let r := remove bar_configs h scale_factor s
      let r2 := removeAll bar_configs scale_factor rest r.1
      (r2.1, r.2 ++ r2.2)

/-- The in-place phase of Outputs::sync, applied entry by entry. -/
def inPlace (bar_configs : List BarConfig) (scale_factor : ℚ) (s : Outputs) :
    Outputs × List Request :=
  let upd := s.entries.map (syncEntry bar_configs scale_factor)
  ({ entries := upd.map Prod.fst, next := s.next }, upd.flatMap Prod.snd)

/-- Outputs::sync: compute, from the current registry, the handles of
non-empty entries that no longer match the filter and the matched empty
entries; re-attach the latter, detach the former, then run the in-place
configuration/scale reconciliation over every remaining pair. -/
def sync (bar_configs : List BarConfig) (request_outputs : ConfigOutputs)
    (scale_factor : ℚ) (s : Outputs) : Outputs × List Request :=
  let to_remove := s.entries.filterMap (fun e =>
    if !(name_in_config e.name request_outputs) && !e.infos.isEmpty then e.output else none)
  let to_add := s.entries.filterMap (fun e =>
    if name_in_config e.name request_outputs && e.infos.isEmpty then
      some (e.name, e.output) else none)
  let stepA := addAll bar_configs request_outputs scale_factor to_add s
  let stepR := removeAll bar_configs scale_factor to_remove stepA.1
  let stepI := inPlace bar_configs scale_factor stepR.1
  (stepI.1, stepA.2 ++ stepR.2 ++ stepI.2)

/-- All surface pairs of the registry, in iteration order. -/
def pairs (s : Outputs) : List ShellInfo :=
  s.entries.flatMap Entry.infos

/-- Outputs::menu_is_open. -/
def menu_is_open (s : Outputs) : Bool :=
  s.entries.any (fun e => e.infos.any (fun si => si.menu.menu_info.isSome))

/-- The body of the toggle_menu loop for one pair: the pair owning the given
surface id (as bar or menu surface) is toggled, every other pair is
closed. -/
def togglePair (id : Nat) (menu_type : MenuType) (button_ui_ref : ButtonUIRef)
    (si : ShellInfo) : ShellInfo × List Request :=
  if si.id == id || si.menu.id == id then
    let r := si.menu.toggle menu_type button_ui_ref
    ({ si with menu := r.1 }, r.2)
  else
    let r := si.menu.close
    ({ si with menu := r.1 }, r.2)

/-- Outputs::toggle_menu: toggle the addressed pair, close all others, and,
when keyboard interactivity was requested and a target pair was found, grant
on-demand keyboard interactivity to that pair's bar surface if the toggle
left a menu open, or revoke it otherwise. -/
def toggle_menu (id : Nat) (menu_type : MenuType) (button_ui_ref : ButtonUIRef)
    (request_keyboard : Bool) (s : Outputs) : Outputs × List Request :=
  let res := s.entries.map (fun e =>
    let ps := e.infos.map (togglePair id menu_type button_ui_ref)
    ({ e with infos := ps.map Prod.fst }, ps.flatMap Prod.snd))
  let task := res.flatMap Prod.snd
  let target_id :=
    ((pairs s).filter (fun si => si.id == id || si.menu.id == id)).getLast?.map ShellInfo.id
  let s1 : Outputs := { entries := res.map Prod.fst, next := s.next }
  if request_keyboard then
    match target_id with
    | some tid =>
        if menu_is_open s1 then
          (s1, task ++ [Request.setKeyboardInteractivity tid KeyboardInteractivity.kOnDemand])
        else
          (s1, task ++ [Request.setKeyboardInteractivity tid KeyboardInteractivity.kNone])
    | none => (s1, task)
  else (s1, task)

/-- Outputs::close_menu: close the menu of the pair owning the given id (the
Rust loop keeps only the task of the last matching pair, though it mutates
every match); when the escape key is enabled and no menu remains open,
revoke keyboard interactivity on the id that was passed in. -/
def close_menu (id : Nat) (esc_button_enabled : Bool) (s : Outputs) :
    Outputs × List Request :=
  let entries1 := s.entries.map (fun e =>
    { e with infos := e.infos.map (fun si =>
        if si.id == id || si.menu.id == id then { si with menu := (si.menu.close).1 }
        else si) })
  let task :=
    match ((pairs s).filter (fun si => si.id == id || si.menu.id == id)).getLast? with
    | some si => (si.menu.close).2
    | none => []
  let s1 : Outputs := { entries := entries1, next := s.next }
  if esc_button_enabled && !(menu_is_open s1) then
    (s1, task ++ [Request.setKeyboardInteractivity id KeyboardInteractivity.kNone])
  else (s1, task)

/-- Outputs::close_menu_if: like close_menu but only when the open menu has
the given kind. -/
def close_menu_if (id : Nat) (menu_type : MenuType) (esc_button_enabled : Bool)
    (s : Outputs) : Outputs × List Request :=
  let entries1 := s.entries.map (fun e =>
    { e with infos := e.infos.map (fun si =>
        if si.id == id || si.menu.id == id then
          { si with menu := (si.menu.close_if menu_type).1 }
        else si) })
  let task :=
    match ((pairs s).filter (fun si => si.id == id || si.menu.id == id)).getLast? with
    | some si => (si.menu.close_if menu_type).2
    | none => []
  let s1 : Outputs := { entries := entries1, next := s.next }
  if esc_button_enabled && !(menu_is_open s1) then
    (s1, task ++ [Request.setKeyboardInteractivity id KeyboardInteractivity.kNone])
  else (s1, task)

/-- Outputs::close_all_menu_if: apply close_if to every pair; when the
escape key is enabled and no menu remains open, revoke keyboard
interactivity on every bar surface. -/
def close_all_menu_if (menu_type : MenuType) (esc_button_enabled : Bool)
    (s : Outputs) : Outputs × List Request :=
  let res := s.entries.map (fun e =>
    let ps := e.infos.map (fun si =>
      let r := si.menu.close_if menu_type
      ({ si with menu := r.1 }, r.2))
    ({ e with infos := ps.map Prod.fst }, ps.flatMap Prod.snd))
  let task := res.flatMap Prod.snd
  let s1 : Outputs := { entries := res.map Prod.fst, next := s.next }
  if esc_button_enabled && !(menu_is_open s1) then
    (s1, task ++ (pairs s1).map (fun si =>
      Request.setKeyboardInteractivity si.id KeyboardInteractivity.kNone))
  else (s1, task)

/-- Outputs::close_all_menus: close every open menu; when the escape key is
enabled and no menu remains open, revoke keyboard interactivity on every bar
surface. -/
def close_all_menus (esc_button_enabled : Bool) (s : Outputs) :
    Outputs × List Request :=
  let res := s.entries.map (fun e =>
    let ps := e.infos.map (fun si =>
      if si.menu.menu_info.isSome then
        let r := si.menu.close
        ({ si with menu := r.1 }, r.2)
      else (si, []))
    ({ e with infos := ps.map Prod.fst }, ps.flatMap Prod.snd))
  let task := res.flatMap Prod.snd
  let s1 : Outputs := { entries := res.map Prod.fst, next := s.next }
  if esc_button_enabled && !(menu_is_open s1) then
    (s1, task ++ (pairs s1).map (fun si =>
      Request.setKeyboardInteractivity si.id KeyboardInteractivity.kNone))
  else (s1, task)

/-- A registry operation, carrying the configuration inputs its Rust
counterpart receives per call. -/
inductive Op where
  | add (bar_configs : List BarConfig) (request_outputs : ConfigOutputs)
      (name : List Char) (wl_output : Nat) (scale_factor : ℚ)
  | remove (bar_configs : List BarConfig) (wl_output : Nat) (scale_factor : ℚ)
  | sync (bar_configs : List BarConfig) (request_outputs : ConfigOutputs)
      (scale_factor : ℚ)
  | toggle_menu (id : Nat) (menu_type : MenuType) (button_ui_ref : ButtonUIRef)
      (request_keyboard : Bool)
  | close_menu (id : Nat) (esc : Bool)
  | close_menu_if (id : Nat) (menu_type : MenuType) (esc : Bool)
  | close_all_menu_if (menu_type : MenuType) (esc : Bool)
  | close_all_menus (esc : Bool)
deriving DecidableEq, Repr

/-- Apply one operation. -/
def applyOp (s : Outputs) : Op → Outputs × List Request
  | Op.add bar_configs request_outputs name wl_output scale_factor =>
      add bar_configs request_outputs name wl_output scale_factor s
  | Op.remove bar_configs wl_output scale_factor =>
      remove bar_configs wl_output scale_factor s
  | Op.sync bar_configs request_outputs scale_factor =>
      sync bar_configs request_outputs scale_factor s
  | Op.toggle_menu id menu_type button_ui_ref request_keyboard =>
      toggle_menu id menu_type button_ui_ref request_keyboard s
  | Op.close_menu id esc => close_menu id esc s
  | Op.close_menu_if id menu_type esc => close_menu_if id menu_type esc s
  | Op.close_all_menu_if menu_type esc => close_all_menu_if menu_type esc s
  | Op.close_all_menus esc => close_all_menus esc s

/-- Run a sequence of operations, keeping only the final state. -/
def run (s : Outputs) : List Op → Outputs
  | [] => s
  | op :: ops => run (applyOp s op).1 ops

/-! System-info module fragments (src/modules/system_info_components and
src/modules/system_info_new.rs).  The shared service lives behind a mutex;
a view receives the result of the lock attempt, modelled as an Option that
is none when the lock cannot be acquired. -/

/-- CpuData of src/modules/system_info_components/service.rs. -/
structure CpuData where
  usage : Nat
  avg_frequency : Nat
  min_frequency : Nat
  max_frequency : Nat
deriving DecidableEq, Repr

/-- TemperatureData of service.rs. -/
structure TemperatureData where
  temperature : Option Int
  sensor : List Char
deriving DecidableEq, Repr

/-- SystemInfoData of service.rs. -/
structure SystemInfoData where
  cpu : CpuData
  temperature : TemperatureData
deriving DecidableEq, Repr

/-- CpuMetrics of cpu.rs. -/
inductive CpuMetrics where
  | Usage
  | UsageAndFrequency
  | AllFrequencies
deriving DecidableEq, Repr

/-- FrequencyUnit of cpu.rs. -/
inductive FrequencyUnit where
  | KHz
  | MHz
  | GHz
deriving DecidableEq, Repr

/-- Strip trailing zero digits. -/
def stripTrailingZeros (s : List Char) : List Char :=
  (s.reverse.dropWhile (fun c => c == '0')).reverse

/-- Pad a number below 1000 to three digits. -/
def pad3 (n : Nat) : String :=
  if n < 10 then "00" ++ Nat.repr n
  else if n < 100 then "0" ++ Nat.repr n
  else Nat.repr n

/-- Modelled from the spec only in its number formatting: the GHz branch of
cpu.rs prints frequency divided by 1000.0 through the f64 Display
implementation; for such short decimal fractions that is the exact decimal
with trailing zeros removed. -/
def ghzRepr (f : Nat) : String :=
  if f % 1000 == 0 then Nat.repr (f / 1000)
  else Nat.repr (f / 1000) ++ "." ++ String.mk (stripTrailingZeros (pad3 (f % 1000)).toList)

/-- CpuModule::format_frequency. -/
def format_frequency (frequency_unit : FrequencyUnit) (frequency : Nat) : String :=
  match frequency_unit with
  | FrequencyUnit.KHz => Nat.repr (frequency * 1000) ++ " kHz"
  | FrequencyUnit.MHz => Nat.repr frequency ++ " MHz"
  | FrequencyUnit.GHz => ghzRepr frequency ++ " GHz"

/-- CpuModule::format_display_text. -/
def cpuFormatDisplayText (metrics : CpuMetrics) (frequency_unit : FrequencyUnit)
    (cpu_data : CpuData) : String :=
  match metrics with
  | CpuMetrics.Usage => Nat.repr cpu_data.usage ++ "%"
  | CpuMetrics.UsageAndFrequency =>
      Nat.repr cpu_data.usage ++ "% @ " ++
        format_frequency frequency_unit cpu_data.avg_frequency
  | CpuMetrics.AllFrequencies =>
      Nat.repr cpu_data.usage ++ "% @ " ++
        format_frequency frequency_unit cpu_data.min_frequency ++ "/" ++
        format_frequency frequency_unit cpu_data.avg_frequency ++ "/" ++
        format_frequency frequency_unit cpu_data.max_frequency

/-- The data CpuModule::view renders from: the shared service's CpuData if
the mutex lock succeeds, and an all-zero CpuData otherwise. -/
def cpuViewData (lock : Option SystemInfoData) : CpuData :=
  match lock with
  | some service => service.cpu
  | none => { usage := 0, avg_frequency := 0, min_frequency := 0, max_frequency := 0 }

/-- The data TemperatureModule::view renders from: the shared service's
TemperatureData if the mutex lock succeeds, otherwise no reading with the
configured sensor name. -/
def temperatureViewData (config_sensor : List Char) (lock : Option SystemInfoData) :
    TemperatureData :=
  match lock with
  | some service => service.temperature
  | none => { temperature := none, sensor := config_sensor }

/-- TemperatureModule::format_display_text. -/
def temperatureFormatDisplayText (temperature_data : TemperatureData) : String :=
  match temperature_data.temperature with
  | some temp => Int.repr temp ++ "°C"
  | none => "N/A"

/-- The CPU data SystemInfoNew::view renders from (same lock-or-zero
selection as the standalone CPU module). -/
def systemInfoNewCpuViewData (lock : Option SystemInfoData) : CpuData :=
  match lock with
  | some service => service.cpu
  | none => { usage := 0, avg_frequency := 0, min_frequency := 0, max_frequency := 0 }

/-- The temperature data SystemInfoNew::view renders from. -/
def systemInfoNewTemperatureViewData (config_sensor : List Char)
    (lock : Option SystemInfoData) : TemperatureData :=
  match lock with
  | some service => service.temperature
  | none => { temperature := none, sensor := config_sensor }

/-! Request classifiers used by the theorems. -/

/-- Is this a layer-surface creation request? -/
def isCreate : Request → Bool
  | Request.createBar _ _ _ _ => true
  | Request.createMenu _ _ => true
  | _ => false

/-- Is this a destroy request? -/
def isDestroy : Request → Bool
  | Request.destroySurface _ => true
  | _ => false

/-- The target of a keyboard-interactivity request, if this is one. -/
def kbdTarget : Request → Option Nat
  | Request.setKeyboardInteractivity i _ => some i
  | _ => none

/-- All bar and menu surface ids of the registry. -/
def allIds (s : Outputs) : List Nat :=
  (pairs s).flatMap (fun si => [si.id, si.menu.id])

/-- Number of pairs with a non-empty menu slot. -/
def openCount (s : Outputs) : Nat :=
  (pairs s).countP (fun si => si.menu.menu_info.isSome)

/-! Concrete fixtures used by counterexamples and witnesses. -/

/-- A concrete bar configuration. -/
def cfgA : BarConfig := { position := Position.Top, appearance := none, payload := 0 }

/-- A second, different concrete bar configuration. -/
def cfgB : BarConfig := { position := Position.Top, appearance := none, payload := 1 }

/-- A concrete Targets filter matching names containing eDP. -/
def filterE : ConfigOutputs := ConfigOutputs.Targets ["eDP".toList]

/-- A concrete Targets filter matching names containing HDMI. -/
def filterH : ConfigOutputs := ConfigOutputs.Targets ["HDMI".toList]

/-! Derived predicates used to state and prove the invariants. -/

/-- The two surface ids of a pair. -/
def infoIds (si : ShellInfo) : List Nat := [si.id, si.menu.id]

/-- All surface ids of one entry. -/
def entryIds (e : Entry) : List Nat := e.infos.flatMap infoIds

/-- Does this pair own the given surface id (as bar or menu surface)? -/
def ownsId (id : Nat) (si : ShellInfo) : Bool := si.id == id || si.menu.id == id

/-- All surface ids of an entry list. -/
def entriesIds (l : List Entry) : List Nat := l.flatMap entryIds

/-- Number of open menus in an entry list. -/
def entriesOpen (l : List Entry) : Nat :=
  (l.flatMap Entry.infos).countP (fun si => si.menu.menu_info.isSome)

/-- Well-formedness maintained by the registry: all surface ids are pairwise
distinct and below the fresh-id counter, and at most one menu is open. -/
def Inv1 (s : Outputs) : Prop :=
  (allIds s).Nodup ∧ (∀ i ∈ allIds s, i < s.next) ∧ openCount s ≤ 1

/-- Every entry holds either zero pairs or exactly n pairs. -/
def lenOk (n : Nat) (s : Outputs) : Prop :=
  ∀ e ∈ s.entries, e.infos.length = 0 ∨ e.infos.length = n

/-- Does the operation carry a bar-configuration list of length n (menu
operations carry none)? -/
def opLenOk (n : Nat) : Op → Prop
  | Op.add bar_configs _ _ _ _ => bar_configs.length = n
  | Op.remove bar_configs _ _ => bar_configs.length = n
  | Op.sync bar_configs _ _ => bar_configs.length = n
  | _ => True

/-- Does the operation use the given filter and a bar-configuration list of
length n (menu operations are unconstrained)? -/
def opOk5 (F : ConfigOutputs) (n : Nat) : Op → Prop
  | Op.add bar_configs request_outputs _ _ _ =>
      bar_configs.length = n ∧ request_outputs = F
  | Op.remove bar_configs _ _ => bar_configs.length = n
  | Op.sync bar_configs request_outputs _ =>
      bar_configs.length = n ∧ request_outputs = F
  | _ => True

/-- The fallback-law invariant: at most one synthetic (handle-free) entry,
and if one exists it is the fallback with exactly n pairs while every
real entry is empty; if none exists some matched real entry is non-empty;
and non-empty real entries always match the filter. -/
def Inv5 (F : ConfigOutputs) (n : Nat) (s : Outputs) : Prop :=
  (∀ e ∈ s.entries, e.output = none → e.name = fallbackName ∧ e.infos.length = n) ∧
  s.entries.countP (fun e => e.output.isNone) ≤ 1 ∧
  ((∃ e ∈ s.entries, e.output = none) →
    ∀ e ∈ s.entries, e.output ≠ none → e.infos = []) ∧
  ((∀ e ∈ s.entries, e.output ≠ none) →
    ∃ e ∈ s.entries, e.output ≠ none ∧ e.infos ≠ [] ∧ name_in_config e.name F = true) ∧
  (∀ e ∈ s.entries, e.infos ≠ [] → e.output ≠ none → name_in_config e.name F = true)

/-- An entry is settled for the filter when, if it owns a handle, it is
matched exactly when it is non-empty. -/
def settled (F : ConfigOutputs) (e : Entry) : Prop :=
  e.output.isSome = true → (name_in_config e.name F = true ↔ e.infos ≠ [])

/-- An entry is configuration-synced when each of its pairs agrees with the
bar configuration at its index and with the scale factor. -/
def cfgSynced (bar_configs : List BarConfig) (scale_factor : ℚ) (e : Entry) : Prop :=
  ∀ (i : Nat) (si : ShellInfo), e.infos[i]? = some si → ∀ c, bar_configs[i]? = some c →
    si.config = c ∧ si.scale_factor = scale_factor

/-- The to_add list computed by Outputs::sync from the pre-state. -/
def toAddList (F : ConfigOutputs) (s : Outputs) : List (List Char × Option Nat) :=
  s.entries.filterMap (fun e =>
    if name_in_config e.name F && e.infos.isEmpty then some (e.name, e.output) else none)

/-- The to_remove list computed by Outputs::sync from the pre-state. -/
def toRemoveList (F : ConfigOutputs) (s : Outputs) : List Nat :=
  s.entries.filterMap (fun e =>
    if !(name_in_config e.name F) && !e.infos.isEmpty then e.output else none)

/-- Invariant carried through the add loop of Outputs::sync, relative to the
original registry s and the still-unprocessed suffix A of the to_add list:
entry names and handles stay pairwise distinct, every handle belongs (under
its current name) to the original registry, matched handle-owning empty
entries are exactly the pending ones, unmatched entries are original,
pending pairs are matched with pairwise-distinct names, and an entry under a
pending name holds the pending handle. -/
def PsiA (F : ConfigOutputs) (s : Outputs) (A : List (List Char × Option Nat))
    (t : Outputs) : Prop :=
  (t.entries.map Entry.name).Nodup ∧
  (t.entries.filterMap Entry.output).Nodup ∧
  (∀ e ∈ t.entries, ∀ h, e.output = some h →
    ∃ e0 ∈ s.entries, e0.name = e.name ∧ e0.output = some h) ∧
  (∀ e ∈ t.entries, e.output.isSome = true → name_in_config e.name F = true →
    e.infos = [] → (e.name, e.output) ∈ A) ∧
  (∀ e ∈ t.entries, name_in_config e.name F = false → e ∈ s.entries) ∧
  (∀ p ∈ A, name_in_config p.1 F = true) ∧
  (A.map Prod.fst).Nodup ∧
  (∀ p ∈ A, ∀ h, p.2 = some h → ∀ e ∈ t.entries, e.name = p.1 → e.output = some h) ∧
  (∀ p ∈ A, ∀ h, p.2 = some h →
    ∃ e0 ∈ s.entries, e0.name = p.1 ∧ e0.output = some h)

/-- Invariant carried through the remove loop of Outputs::sync, relative to
the still-unprocessed suffix R of the to_remove list: handles stay pairwise
distinct, matched handle-owning entries are non-empty, every unmatched
non-empty handle-owning entry is still pending, and pending handles belong
to unmatched entries. -/
def PsiR (F : ConfigOutputs) (R : List Nat) (t : Outputs) : Prop :=
  (t.entries.filterMap Entry.output).Nodup ∧
  (∀ e ∈ t.entries, e.output.isSome = true → name_in_config e.name F = true →
    e.infos ≠ []) ∧
  (∀ e ∈ t.entries, e.output.isSome = true → name_in_config e.name F = false →
    e.infos ≠ [] → ∃ h ∈ R, e.output = some h) ∧
  (∀ h ∈ R, ∀ e ∈ t.entries, e.output = some h → name_in_config e.name F = false)

/-! Theorems for the claims. -/

/-- Claim C7: for every bar configuration and scale factor the computed bar
height equals (base height minus 8) times the scale factor for the Solid and
Gradient styles and base height times the scale factor for Islands, and
create_output_layers uses exactly this height in the bar creation request
(one value serving as both size and exclusive zone). -/
theorem C7_bar_height_formula (scale_factor : ℚ) :
    get_height AppearanceStyle.Solid scale_factor = (HEIGHT - 8) * scale_factor ∧
    get_height AppearanceStyle.Gradient scale_factor = (HEIGHT - 8) * scale_factor ∧
    get_height AppearanceStyle.Islands scale_factor = HEIGHT * scale_factor ∧
    ∀ (config : BarConfig) (wl_output : Option Nat) (next : Nat),
      (create_output_layers wl_output [config] scale_factor next).2.1 =
        [Request.createBar next (get_height (styleOf config) scale_factor)
            config.position wl_output,
          Request.createMenu (next + 1) wl_output] := by
  refine ⟨rfl, rfl, ?_, ?_⟩
  · simp [get_height]
  · intro config wl_output next
    rfl

/-- Claim C8 counterexample: the membership test on the empty display name
does not return false for every Targets list; a Targets list containing the
empty string matches the empty name, because the Rust substring test accepts
the empty pattern. -/
theorem C8_counterexample_empty_target :
    name_in_config [] (ConfigOutputs.Targets [[]]) = true := by decide

/-- Claim C8 (amended): an attach event whose name is the empty string
matches the All filter, does not match ActiveOnly, and does not match any
Targets list all of whose entries are non-empty; a Targets entry that is
itself the empty string matches every name, the empty one included. -/
theorem C8_empty_name_matching (l : List (List Char)) (h : ∀ t ∈ l, t ≠ []) :
    name_in_config [] ConfigOutputs.All = true ∧
    name_in_config [] ConfigOutputs.Active = false ∧
    name_in_config [] (ConfigOutputs.Targets l) = false := by
  refine ⟨rfl, rfl, ?_⟩
  simp only [name_in_config, List.any_eq_false]
  intro t ht
  have hne := h t ht
  cases t with
  | nil => exact absurd rfl hne
  | cons c cs => simp [strContains]

/-- Witness for C8_empty_name_matching at a concrete non-empty target
list. -/
theorem C8_empty_name_matching_witness :
    name_in_config [] ConfigOutputs.All = true ∧
    name_in_config [] ConfigOutputs.Active = false ∧
    name_in_config [] (ConfigOutputs.Targets [['a']]) = false :=
  C8_empty_name_matching [['a']] (by decide)

/-- Claim C9: when the shared system-info service mutex cannot be locked,
the CPU views render from an all-zero CpuData and the temperature views from
an absent reading that is displayed as N/A, for the standalone CPU and
temperature modules as well as for the combined system-info module. -/
theorem C9_lock_failure_fallback (sensor : List Char) :
    cpuViewData none =
      { usage := 0, avg_frequency := 0, min_frequency := 0, max_frequency := 0 } ∧
    temperatureViewData sensor none = { temperature := none, sensor := sensor } ∧
    temperatureFormatDisplayText (temperatureViewData sensor none) = "N/A" ∧
    systemInfoNewCpuViewData none =
      { usage := 0, avg_frequency := 0, min_frequency := 0, max_frequency := 0 } ∧
    systemInfoNewTemperatureViewData sensor none =
      { temperature := none, sensor := sensor } ∧
    (∀ frequency_unit,
      cpuFormatDisplayText CpuMetrics.Usage frequency_unit (cpuViewData none) = "0%") := by
  refine ⟨rfl, rfl, rfl, rfl, rfl, ?_⟩
  intro frequency_unit
  rfl

/-- Claim C3: the code violates handle uniqueness.  With the filter
Targets eDP, attaching HDMI-1 with handle 7 (unmatched), detaching handle 7
(which retains name and handle in an emptied entry), and attaching HDMI-1
with handle 7 again leaves two live registry entries owning handle 7. -/
theorem C3_duplicate_handle_after_detach_reattach :
    ((run (Outputs.new [cfgA] 1).1
        [Op.add [cfgA] filterE "HDMI-1".toList 7 1,
         Op.remove [cfgA] 7 1,
         Op.add [cfgA] filterE "HDMI-1".toList 7 1]).entries.filter
      (fun e => e.output == some 7)).length = 2 := by decide

/-- Claim C2 counterexample: starting from a registry created with one bar
configuration, a sync carrying two bar configurations and the All filter
leaves the single matched, non-empty entry with one live pair while two bars
are configured. -/
theorem C2_counterexample_bar_count_change :
    ((sync [cfgA, cfgB] ConfigOutputs.All 1 (Outputs.new [cfgA] 1).1).1.entries.map
      (fun e => (name_in_config e.name ConfigOutputs.All, e.infos.length)) = [(true, 1)]) ∧
    [cfgA, cfgB].length = 2 := by
  exact ⟨by decide, rfl⟩

/-- Claim C5 counterexample: in the same run, zero displays match the filter
(the registry holds no display entry at all), exactly one synthetic fallback
entry exists, but it holds one pair while two bars are configured, against
the claimed exactly len bar_configs pairs. -/
theorem C5_counterexample_fallback_pair_count :
    ((sync [cfgA, cfgB] ConfigOutputs.All 1 (Outputs.new [cfgA] 1).1).1.entries.map
      (fun e => (e.output, e.infos.length)) = [(none, 1)]) ∧
    [cfgA, cfgB].length = 2 := by
  exact ⟨by decide, rfl⟩

/-- The registry used by the C6 counterexample: one matched attach of eDP
with handle 1, then (after a filter change) an unmatched attach of the same
name with handle 4, leaving a non-empty eDP entry followed by an empty eDP
entry that retains a handle. -/
def C6state : Outputs :=
  run (Outputs.new [cfgA] 1).1
    [Op.add [cfgA] filterE "eDP".toList 1 1,
     Op.add [cfgA] filterH "eDP".toList 4 1]

/-- Claim C6 counterexample: from C6state, two consecutive syncs with
identical bar configurations, filter, and scale factor are not idempotent:
the second sync still issues two surface-creation requests (and the first
destroyed the surfaces of the live eDP entry), because the duplicate-name
entry keeps re-entering the to-add set. -/
theorem C6_counterexample_second_sync_creates :
    ((sync [cfgA] filterE 1 (sync [cfgA] filterE 1 C6state).1).2.filter isCreate).length
      = 2 := by decide

/-! Infrastructure lemmas about swap removal, surface creation, and the
reconciliation loops. -/

theorem swapRemove_perm : ∀ (l : List α) (i : Nat), i < l.length →
    swapRemove l i ~ l.eraseIdx i := by
  intro l
  induction l with
  | nil => intro i h; simp at h
  | cons a t ih =>
    intro i h
    cases t with
    | nil =>
      have hi0 : i = 0 := by simp at h; omega
      subst hi0
      show swapRemove [a] 0 ~ [a].eraseIdx 0
      have hsw : swapRemove [a] 0 = [] := rfl
      rw [hsw]
      exact List.Perm.refl _
    | cons b t2 =>
      have hne : b :: t2 ≠ [] := by simp
      have hg : (a :: b :: t2).getLast? = some ((b :: t2).getLast hne) := by
        rw [List.getLast?_cons_cons, List.getLast?_eq_getLast _ hne]
      cases i with
      | zero =>
        simp only [swapRemove, hg, List.set_cons_zero, List.dropLast_cons₂,
          List.eraseIdx_cons_zero]
        have hsplit : (b :: t2).dropLast ++ [(b :: t2).getLast hne] = b :: t2 :=
          List.dropLast_concat_getLast hne
        calc (b :: t2).getLast hne :: (b :: t2).dropLast
            ~ (b :: t2).dropLast ++ [(b :: t2).getLast hne] :=
              (List.perm_append_singleton _ _).symm
          _ = b :: t2 := hsplit
      | succ j =>
        have hj : j < (b :: t2).length := by
          simp only [List.length_cons] at h ⊢
          omega
        have hx : ∃ c cs, (b :: t2).set j ((b :: t2).getLast hne) = c :: cs := by
          cases j with
          | zero => exact ⟨_, _, rfl⟩
          | succ k => exact ⟨_, _, rfl⟩
        obtain ⟨c, cs, hcs⟩ := hx
        have hswap : swapRemove (a :: b :: t2) (j + 1) = a :: swapRemove (b :: t2) j := by
          simp only [swapRemove, hg, List.set_cons_succ,
            List.getLast?_eq_getLast _ hne, hcs, List.dropLast_cons₂]
        rw [hswap, List.eraseIdx_cons_succ]
        exact List.Perm.cons a (ih j hj)

theorem removeAt?_none {l : List α} {p : α → Bool} (h : removeAt? l p = none) :
    ∀ x ∈ l, p x = false := by
  unfold removeAt? at h
  split at h
  next heq => exact List.findIdx?_eq_none_iff.mp heq
  next i heq =>
    split at h
    next hg =>
      obtain ⟨hi, hp, -⟩ := List.findIdx?_eq_some_iff_getElem.mp heq
      rw [List.getElem?_eq_getElem hi] at hg
      simp at hg
    next e2 hg => simp at h

theorem removeAt?_some {l : List α} {p : α → Bool} {e : α} {rest : List α}
    (h : removeAt? l p = some (e, rest)) :
    p e = true ∧ l ~ e :: rest := by
  unfold removeAt? at h
  split at h
  next heq => simp at h
  next i heq =>
    split at h
    next hg => simp at h
    next e2 hg =>
      obtain ⟨hi, hp, -⟩ := List.findIdx?_eq_some_iff_getElem.mp heq
      rw [List.getElem?_eq_getElem hi] at hg
      injection hg with hg2
      simp only [Option.some.injEq, Prod.mk.injEq] at h
      obtain ⟨he, hrest⟩ := h
      subst hrest
      subst he
      subst hg2
      refine ⟨hp, ?_⟩
      have hdecomp : l = l.take i ++ l[i] :: l.drop (i + 1) := by
        conv_lhs => rw [← List.take_append_drop i l]
        rw [List.getElem_cons_drop]
      have h1 : l ~ l[i] :: l.eraseIdx i := by
        rw [List.eraseIdx_eq_take_drop_succ]
        conv_lhs => rw [hdecomp]
        exact List.perm_middle
      exact h1.trans (List.Perm.cons _ (swapRemove_perm l i hi).symm)

theorem create_output_layers_spec (wl : Option Nat) (sf : ℚ) :
    ∀ (cfgs : List BarConfig) (n : Nat),
      (create_output_layers wl cfgs sf n).2.2 = n + 2 * cfgs.length ∧
      (create_output_layers wl cfgs sf n).1.map ShellInfo.config = cfgs ∧
      (∀ si ∈ (create_output_layers wl cfgs sf n).1,
        si.scale_factor = sf ∧ si.menu.menu_info = none) ∧
      (∀ i ∈ (create_output_layers wl cfgs sf n).1.flatMap infoIds,
        n ≤ i ∧ i < n + 2 * cfgs.length) ∧
      ((create_output_layers wl cfgs sf n).1.flatMap infoIds).Nodup := by
  intro cfgs
  induction cfgs with
  | nil => intro n; simp [create_output_layers]
  | cons c rest ih =>
    intro n
    obtain ⟨ih1, ih2, ih3, ih4, ih5⟩ := ih (n + 2)
    refine ⟨?_, ?_, ?_, ?_, ?_⟩
    · show (create_output_layers wl rest sf (n + 2)).2.2 = n + 2 * (rest.length + 1)
      omega
    · show ({ id := n, config := c, menu := Menu.new (n + 1), scale_factor := sf } :
          ShellInfo).config :: (create_output_layers wl rest sf (n + 2)).1.map
            ShellInfo.config = c :: rest
      rw [ih2]
    · intro si hsi
      rcases List.mem_cons.mp hsi with h | h
      · subst h; exact ⟨rfl, rfl⟩
      · exact ih3 si h
    · intro i hi
      have hexp : (create_output_layers wl (c :: rest) sf n).1.flatMap infoIds =
          n :: (n + 1) :: (create_output_layers wl rest sf (n + 2)).1.flatMap infoIds := rfl
      rw [hexp] at hi
      simp only [List.length_cons]
      rcases List.mem_cons.mp hi with h | h
      · omega
      · rcases List.mem_cons.mp h with h2 | h2
        · omega
        · have := ih4 i h2
          constructor <;> omega
    · have hexp : (create_output_layers wl (c :: rest) sf n).1.flatMap infoIds =
          n :: (n + 1) :: (create_output_layers wl rest sf (n + 2)).1.flatMap infoIds := rfl
      rw [hexp]
      rw [List.nodup_cons, List.nodup_cons]
      refine ⟨?_, ?_, ih5⟩
      · intro hmem
        rcases List.mem_cons.mp hmem with h | h
        · omega
        · have := (ih4 n h).1; omega
      · intro hmem
        have := (ih4 (n + 1) hmem).1; omega

theorem addAll_preserves {P : Outputs → Prop} {cfg : List BarConfig}
    {F : ConfigOutputs} {sf : ℚ}
    (hstep : ∀ nm h s, P s → P (add cfg F nm h sf s).1) :
    ∀ (A : List (List Char × Option Nat)) (s : Outputs), P s →
      P (addAll cfg F sf A s).1 := by
  intro A
  induction A with
  | nil => intro s hs; exact hs
  | cons p rest ih =>
    intro s hs
    rcases p with ⟨nm, o⟩
    cases o with
    | some h => exact ih _ (hstep nm h s hs)
    | none => exact ih _ hs

theorem removeAll_preserves {P : Outputs → Prop} {cfg : List BarConfig} {sf : ℚ}
    (hstep : ∀ h s, P s → P (remove cfg h sf s).1) :
    ∀ (R : List Nat) (s : Outputs), P s → P (removeAll cfg sf R s).1 := by
  intro R
  induction R with
  | nil => intro s hs; exact hs
  | cons h rest ih => intro s hs; exact ih _ (hstep h s hs)

theorem run_preserves_of {P : Outputs → Prop} {Q : Op → Prop}
    (hstep : ∀ s op, Q op → P s → P (applyOp s op).1) :
    ∀ (ops : List Op) (s : Outputs), (∀ op ∈ ops, Q op) → P s → P (run s ops) := by
  intro ops
  induction ops with
  | nil => intro s _ hs; exact hs
  | cons op rest ih =>
    intro s hq hs
    exact ih _ (fun o ho => hq o (List.mem_cons_of_mem _ ho))
      (hstep s op (hq op (List.mem_cons_self _ _)) hs)

theorem syncInfo_preserves (cfg : List BarConfig) (sf : ℚ) (i : Nat) (si : ShellInfo) :
    (syncInfo cfg sf i si).1.id = si.id ∧ (syncInfo cfg sf i si).1.menu = si.menu := by
  cases h : cfg[i]? with
  | none => simp [syncInfo, h]
  | some c =>
    simp only [syncInfo, h]
    split
    · exact ⟨rfl, rfl⟩
    · exact ⟨rfl, rfl⟩

theorem syncInfos_map_idMenu (cfg : List BarConfig) (sf : ℚ) :
    ∀ (l : List ShellInfo) (i : Nat),
      (syncInfos cfg sf i l).1.map (fun si => (si.id, si.menu)) =
        l.map (fun si => (si.id, si.menu)) := by
  intro l
  induction l with
  | nil => intro i; rfl
  | cons si rest ih =>
    intro i
    have h1 := syncInfo_preserves cfg sf i si
    show ((syncInfo cfg sf i si).1.id, (syncInfo cfg sf i si).1.menu) ::
        (syncInfos cfg sf (i + 1) rest).1.map (fun si => (si.id, si.menu)) =
      (si.id, si.menu) :: rest.map (fun si => (si.id, si.menu))
    rw [h1.1, h1.2, ih (i + 1)]

theorem map_idMenu_facts : ∀ {l₁ l₂ : List ShellInfo},
    l₁.map (fun si => (si.id, si.menu)) = l₂.map (fun si => (si.id, si.menu)) →
    l₁.flatMap infoIds = l₂.flatMap infoIds ∧
    l₁.countP (fun si => si.menu.menu_info.isSome) =
      l₂.countP (fun si => si.menu.menu_info.isSome) ∧
    l₁.length = l₂.length := by
  intro l₁
  induction l₁ with
  | nil =>
    intro l₂ h
    cases l₂ with
    | nil => exact ⟨rfl, rfl, rfl⟩
    | cons b bs => simp at h
  | cons a as ih =>
    intro l₂ h
    cases l₂ with
    | nil => simp at h
    | cons b bs =>
      simp only [List.map_cons, List.cons.injEq, Prod.mk.injEq] at h
      obtain ⟨⟨hid, hmenu⟩, htail⟩ := h
      obtain ⟨h1, h2, h3⟩ := ih htail
      refine ⟨?_, ?_, ?_⟩
      · simp only [List.flatMap_cons, infoIds, hid, hmenu, h1]
      · simp only [List.countP_cons, hmenu, h2]
      · simp only [List.length_cons, h3]

theorem Menu.toggle_id (m : Menu) (mt : MenuType) (ref : ButtonUIRef) :
    (Menu.toggle m mt ref).1.id = m.id := by
  unfold Menu.toggle
  split
  · split <;> rfl
  · rfl

theorem Menu.close_id (m : Menu) : (Menu.close m).1.id = m.id := by
  unfold Menu.close
  split <;> rfl

theorem Menu.close_menu_info (m : Menu) : (Menu.close m).1.menu_info = none := by
  unfold Menu.close
  split
  · rfl
  next heq => exact heq

theorem Menu.close_if_id (m : Menu) (mt : MenuType) : (Menu.close_if m mt).1.id = m.id := by
  unfold Menu.close_if
  split
  · split <;> rfl
  · rfl

theorem Menu.close_if_shrinks (m : Menu) (mt : MenuType) :
    (Menu.close_if m mt).1.menu_info.isSome = true → m.menu_info.isSome = true := by
  unfold Menu.close_if
  split
  · split
    · intro h; simp at h
    next heq _ => intro _; rw [heq]; rfl
  · intro h; exact h

theorem togglePair_ids (id : Nat) (mt : MenuType) (ref : ButtonUIRef) (si : ShellInfo) :
    (togglePair id mt ref si).1.id = si.id ∧
    (togglePair id mt ref si).1.menu.id = si.menu.id := by
  unfold togglePair
  split
  · exact ⟨rfl, Menu.toggle_id si.menu mt ref⟩
  · exact ⟨rfl, Menu.close_id si.menu⟩

theorem togglePair_not_owns {id : Nat} (mt : MenuType) (ref : ButtonUIRef)
    {si : ShellInfo} (h : ownsId id si = false) :
    (togglePair id mt ref si).1.menu.menu_info = none := by
  unfold togglePair
  have hcond : (si.id == id || si.menu.id == id) = false := h
  rw [hcond]
  simp only [Bool.false_eq_true, if_false]
  exact Menu.close_menu_info si.menu

theorem ownsId_mem {id : Nat} {si : ShellInfo} (h : ownsId id si = true) :
    id ∈ infoIds si := by
  unfold ownsId at h
  simp only [Bool.or_eq_true, beq_iff_eq] at h
  unfold infoIds
  rcases h with h | h <;> simp [h]

theorem countP_owns_le_one (id : Nat) :
    ∀ (l : List ShellInfo), (l.flatMap infoIds).Nodup → l.countP (ownsId id) ≤ 1 := by
  intro l
  induction l with
  | nil => intro _; simp
  | cons si rest ih =>
    intro hnd
    rw [List.flatMap_cons, List.nodup_append] at hnd
    obtain ⟨h1, h2, h3⟩ := hnd
    rw [List.countP_cons]
    by_cases hown : ownsId id si = true
    · have hid : id ∈ infoIds si := ownsId_mem hown
      have hzero : rest.countP (ownsId id) = 0 := by
        rw [List.countP_eq_zero]
        intro si2 hsi2 hp
        have hid2 : id ∈ infoIds si2 := ownsId_mem hp
        have hmem : id ∈ rest.flatMap infoIds := List.mem_flatMap.mpr ⟨si2, hsi2, hid2⟩
        exact h3 hid hmem
      simp [hzero, hown]
    · have hfalse : ownsId id si = false := by
        cases hcase : ownsId id si
        · rfl
        · exact absurd hcase hown
      rw [hfalse]
      simp only [Bool.false_eq_true, if_false, Nat.add_zero]
      exact ih h2

theorem flatMap_infoIds_map (f : ShellInfo → ShellInfo)
    (hf : ∀ si, (f si).id = si.id ∧ (f si).menu.id = si.menu.id) :
    ∀ (l : List ShellInfo), (l.map f).flatMap infoIds = l.flatMap infoIds := by
  intro l
  induction l with
  | nil => rfl
  | cons si rest ih =>
    simp only [List.map_cons, List.flatMap_cons, ih]
    congr 1
    unfold infoIds
    rw [(hf si).1, (hf si).2]

theorem pairs_map_infos (f : ShellInfo → ShellInfo) :
    ∀ (l : List Entry),
      (l.map (fun e => { e with infos := e.infos.map f })).flatMap Entry.infos =
        (l.flatMap Entry.infos).map f := by
  intro l
  induction l with
  | nil => rfl
  | cons e rest ih =>
    simp only [List.map_cons, List.flatMap_cons, List.map_append, ih]

theorem allIds_entries (s : Outputs) : allIds s = s.entries.flatMap entryIds := by
  unfold allIds pairs entryIds
  rw [List.flatMap_assoc]
  rfl

/-- State facts for the registry obtained by mapping a per-pair function
over every entry of s. -/
theorem mapped_state_facts (f : ShellInfo → ShellInfo)
    (hf : ∀ si, (f si).id = si.id ∧ (f si).menu.id = si.menu.id) (s : Outputs) :
    allIds (Outputs.mk (s.entries.map (fun e => { e with infos := e.infos.map f }))
        s.next) = allIds s ∧
    openCount (Outputs.mk (s.entries.map (fun e => { e with infos := e.infos.map f }))
        s.next) = (pairs s).countP (fun si => (f si).menu.menu_info.isSome) ∧
    pairs (Outputs.mk (s.entries.map (fun e => { e with infos := e.infos.map f }))
        s.next) = (pairs s).map f ∧
    (s.entries.map (fun e => { e with infos := e.infos.map f })).map
        (fun e => (e.name, e.output, e.infos.length)) =
      s.entries.map (fun e => (e.name, e.output, e.infos.length)) := by
  have hpairs : pairs (Outputs.mk (s.entries.map
      (fun e => { e with infos := e.infos.map f })) s.next) = (pairs s).map f :=
    pairs_map_infos f s.entries
  refine ⟨?_, ?_, hpairs, ?_⟩
  · unfold allIds
    rw [hpairs]
    exact flatMap_infoIds_map f hf (pairs s)
  · unfold openCount
    rw [hpairs, List.countP_map]
    rfl
  · have : ∀ (l : List Entry), (l.map (fun e => { e with infos := e.infos.map f })).map
        (fun e => (e.name, e.output, e.infos.length)) =
        l.map (fun e => (e.name, e.output, e.infos.length)) := by
      intro l
      induction l with
      | nil => rfl
      | cons e rest ih =>
        simp only [List.map_cons, ih, List.length_map]
    exact this s.entries

theorem entriesIds_perm {l₁ l₂ : List Entry} (h : l₁ ~ l₂) :
    entriesIds l₁ ~ entriesIds l₂ :=
  h.flatMap_right entryIds

theorem entriesOpen_perm {l₁ l₂ : List Entry} (h : l₁ ~ l₂) :
    entriesOpen l₁ = entriesOpen l₂ :=
  (h.flatMap_right Entry.infos).countP_eq _

theorem entriesIds_append (l₁ l₂ : List Entry) :
    entriesIds (l₁ ++ l₂) = entriesIds l₁ ++ entriesIds l₂ := by
  unfold entriesIds
  rw [List.flatMap_append]

theorem entriesOpen_append (l₁ l₂ : List Entry) :
    entriesOpen (l₁ ++ l₂) = entriesOpen l₁ + entriesOpen l₂ := by
  unfold entriesOpen
  rw [List.flatMap_append, List.countP_append]

theorem entriesIds_cons (e : Entry) (l : List Entry) :
    entriesIds (e :: l) = entryIds e ++ entriesIds l := by
  unfold entriesIds
  rw [List.flatMap_cons]

theorem entriesOpen_cons (e : Entry) (l : List Entry) :
    entriesOpen (e :: l) = e.infos.countP (fun si => si.menu.menu_info.isSome) +
      entriesOpen l := by
  unfold entriesOpen
  rw [List.flatMap_cons, List.countP_append]

theorem allIds_eq_entriesIds (s : Outputs) : allIds s = entriesIds s.entries :=
  allIds_entries s

theorem openCount_eq_entriesOpen (s : Outputs) : openCount s = entriesOpen s.entries := rfl

theorem toggle_menu_fst (id : Nat) (mt : MenuType) (ref : ButtonUIRef) (rk : Bool)
    (s : Outputs) :
    (toggle_menu id mt ref rk s).1 = Outputs.mk
      (s.entries.map (fun e =>
        { e with infos := e.infos.map (fun si => (togglePair id mt ref si).1) })) s.next := by
  simp only [toggle_menu]
  split
  · split
    · split <;> (simp only [List.map_map]; rfl)
    · simp only [List.map_map]; rfl
  · simp only [List.map_map]; rfl

theorem close_menu_fst (id : Nat) (esc : Bool) (s : Outputs) :
    (close_menu id esc s).1 = Outputs.mk
      (s.entries.map (fun e =>
        { e with infos := e.infos.map (fun si =>
          if si.id == id || si.menu.id == id then { si with menu := (Menu.close si.menu).1 }
          else si) })) s.next := by
  simp only [close_menu]
  split <;> rfl

theorem close_menu_if_fst (id : Nat) (mt : MenuType) (esc : Bool) (s : Outputs) :
    (close_menu_if id mt esc s).1 = Outputs.mk
      (s.entries.map (fun e =>
        { e with infos := e.infos.map (fun si =>
          if si.id == id || si.menu.id == id then
            { si with menu := (Menu.close_if si.menu mt).1 }
          else si) })) s.next := by
  simp only [close_menu_if]
  split <;> rfl

theorem close_all_menu_if_fst (mt : MenuType) (esc : Bool) (s : Outputs) :
    (close_all_menu_if mt esc s).1 = Outputs.mk
      (s.entries.map (fun e =>
        { e with infos := e.infos.map (fun si =>
          { si with menu := (si.menu.close_if mt).1 }) })) s.next := by
  simp only [close_all_menu_if]
  split <;> (simp only [List.map_map]; rfl)

theorem close_all_menus_fst (esc : Bool) (s : Outputs) :
    (close_all_menus esc s).1 = Outputs.mk
      (s.entries.map (fun e =>
        { e with infos := e.infos.map (fun si =>
          if si.menu.menu_info.isSome then { si with menu := (si.menu.close).1 }
          else si) })) s.next := by
  simp only [close_all_menus]
  split <;>
  · refine congrArg (fun l => Outputs.mk l s.next) ?_
    rw [List.map_map]
    refine List.map_congr_left ?_
    intro e _
    show Entry.mk e.name _ e.output = Entry.mk e.name _ e.output
    congr 1
    rw [List.map_map]
    refine List.map_congr_left ?_
    intro si _
    show Prod.fst (if si.menu.menu_info.isSome = true then _ else _) = _
    split <;> rfl

/-- Structural characterisation of Outputs::add: on an unmatched name it
appends an empty entry; on a matched name it creates the new entry, drops at
most two entries (a same-name entry and a fallback entry, both from the
original registry), and its requests are the destroys of what it dropped
followed by the creation requests. -/
theorem add_entries_shape (cfg : List BarConfig) (F : ConfigOutputs) (nm : List Char)
    (wl : Nat) (sf : ℚ) (s : Outputs) :
    (name_in_config nm F = false ∧
      (add cfg F nm wl sf s).1.entries = s.entries ++ [Entry.mk nm [] (some wl)] ∧
      (add cfg F nm wl sf s).1.next = s.next ∧ (add cfg F nm wl sf s).2 = []) ∨
    (name_in_config nm F = true ∧
      (add cfg F nm wl sf s).1.next = (create_output_layers (some wl) cfg sf s.next).2.2 ∧
      ∃ dropped : List Entry,
        (∀ d ∈ dropped, d ∈ s.entries) ∧
        (s.entries ++
            [Entry.mk nm (create_output_layers (some wl) cfg sf s.next).1 (some wl)]
          ~ dropped ++ (add cfg F nm wl sf s).1.entries) ∧
        (add cfg F nm wl sf s).2 = dropped.flatMap destroyEntry ++
          (create_output_layers (some wl) cfg sf s.next).2.1 ∧
        ((∀ e ∈ (add cfg F nm wl sf s).1.entries, e.output.isNone = false) ∨
          ∃ d ∈ dropped, d.output.isNone = true) ∧
        Entry.mk nm (create_output_layers (some wl) cfg sf s.next).1 (some wl) ∈
          (add cfg F nm wl sf s).1.entries) := by
  by_cases ht : name_in_config nm F = true
  · right
    refine ⟨ht, ?_⟩
    cases h1 : removeAt? s.entries (fun e => e.name == nm) with
    | none =>
      cases h2 : removeAt? (s.entries ++
          [Entry.mk nm (create_output_layers (some wl) cfg sf s.next).1 (some wl)])
          (fun e => e.output.isNone) with
      | none =>
        have hadd1 : (add cfg F nm wl sf s).1.entries = s.entries ++
            [Entry.mk nm (create_output_layers (some wl) cfg sf s.next).1 (some wl)] := by
          simp [add, ht, h1, h2]
        have hadd2 : (add cfg F nm wl sf s).1.next =
            (create_output_layers (some wl) cfg sf s.next).2.2 := by
          simp [add, ht, h1, h2]
        have hadd3 : (add cfg F nm wl sf s).2 =
            (create_output_layers (some wl) cfg sf s.next).2.1 := by
          simp [add, ht, h1, h2]
        refine ⟨hadd2, [], ?_, ?_, ?_, ?_, ?_⟩
        · intro d hd; simp at hd
        · rw [hadd1]
          simp only [List.nil_append]
          exact List.Perm.refl _
        · rw [hadd3]
          simp
        · left
          intro e he
          rw [hadd1] at he
          simpa using removeAt?_none h2 e he
        · rw [hadd1]
          exact List.mem_append_right _ (List.mem_singleton.mpr rfl)
      | some pr =>
        rcases pr with ⟨old2, rest2⟩
        obtain ⟨hp2, hperm2⟩ := removeAt?_some h2
        have hp2e : old2.output.isNone = true := by simpa using hp2
        have hadd1 : (add cfg F nm wl sf s).1.entries = rest2 := by
          simp [add, ht, h1, h2]
        have hadd2 : (add cfg F nm wl sf s).1.next =
            (create_output_layers (some wl) cfg sf s.next).2.2 := by
          simp [add, ht, h1, h2]
        have hadd3 : (add cfg F nm wl sf s).2 = destroyEntry old2 ++
            (create_output_layers (some wl) cfg sf s.next).2.1 := by
          simp [add, ht, h1, h2]
        refine ⟨hadd2, [old2], ?_, ?_, ?_, ?_, ?_⟩
        · intro d hd
          simp only [List.mem_singleton] at hd
          subst hd
          have hmem : d ∈ s.entries ++
              [Entry.mk nm (create_output_layers (some wl) cfg sf s.next).1 (some wl)] :=
            hperm2.symm.subset (List.mem_cons_self _ _)
          rcases List.mem_append.mp hmem with h | h
          · exact h
          · exfalso
            simp only [List.mem_singleton] at h
            rw [h] at hp2e
            simp at hp2e
        · rw [hadd1]
          simpa using hperm2
        · rw [hadd3]
          simp
        · right
          exact ⟨old2, List.mem_singleton.mpr rfl, hp2e⟩
        · rw [hadd1]
          have hmem : Entry.mk nm (create_output_layers (some wl) cfg sf s.next).1
              (some wl) ∈ s.entries ++
              [Entry.mk nm (create_output_layers (some wl) cfg sf s.next).1 (some wl)] :=
            List.mem_append_right _ (List.mem_singleton.mpr rfl)
          have hcons := hperm2.subset hmem
          rcases List.mem_cons.mp hcons with h | h
          · exfalso
            rw [← h] at hp2e
            simp at hp2e
          · exact h
    | some pr1 =>
      rcases pr1 with ⟨old1, rest1⟩
      obtain ⟨hp1, hperm1⟩ := removeAt?_some h1
      cases h2 : removeAt? (rest1 ++
          [Entry.mk nm (create_output_layers (some wl) cfg sf s.next).1 (some wl)])
          (fun e => e.output.isNone) with
      | none =>
        have hadd1 : (add cfg F nm wl sf s).1.entries = rest1 ++
            [Entry.mk nm (create_output_layers (some wl) cfg sf s.next).1 (some wl)] := by
          simp [add, ht, h1, h2]
        have hadd2 : (add cfg F nm wl sf s).1.next =
            (create_output_layers (some wl) cfg sf s.next).2.2 := by
          simp [add, ht, h1, h2]
        have hadd3 : (add cfg F nm wl sf s).2 = destroyEntry old1 ++
            (create_output_layers (some wl) cfg sf s.next).2.1 := by
          simp [add, ht, h1, h2]
        refine ⟨hadd2, [old1], ?_, ?_, ?_, ?_, ?_⟩
        · intro d hd
          simp only [List.mem_singleton] at hd
          subst hd
          exact hperm1.symm.subset (List.mem_cons_self _ _)
        · rw [hadd1]
          have hstep := hperm1.append_right
            [Entry.mk nm (create_output_layers (some wl) cfg sf s.next).1 (some wl)]
          simpa using hstep
        · rw [hadd3]
          simp
        · left
          intro e he
          rw [hadd1] at he
          simpa using removeAt?_none h2 e he
        · rw [hadd1]
          exact List.mem_append_right _ (List.mem_singleton.mpr rfl)
      | some pr2 =>
        rcases pr2 with ⟨old2, rest2⟩
        obtain ⟨hp2, hperm2⟩ := removeAt?_some h2
        have hp2e : old2.output.isNone = true := by simpa using hp2
        have hadd1 : (add cfg F nm wl sf s).1.entries = rest2 := by
          simp [add, ht, h1, h2]
        have hadd2 : (add cfg F nm wl sf s).1.next =
            (create_output_layers (some wl) cfg sf s.next).2.2 := by
          simp [add, ht, h1, h2]
        have hadd3 : (add cfg F nm wl sf s).2 =
            (destroyEntry old1 ++ destroyEntry old2) ++
            (create_output_layers (some wl) cfg sf s.next).2.1 := by
          simp [add, ht, h1, h2]
        refine ⟨hadd2, [old1, old2], ?_, ?_, ?_, ?_, ?_⟩
        · intro d hd
          simp only [List.mem_cons, List.mem_singleton, List.not_mem_nil, or_false] at hd
          rcases hd with hd | hd
          · subst hd
            exact hperm1.symm.subset (List.mem_cons_self _ _)
          · subst hd
            have hmem : d ∈ rest1 ++
                [Entry.mk nm (create_output_layers (some wl) cfg sf s.next).1 (some wl)] :=
              hperm2.symm.subset (List.mem_cons_self _ _)
            rcases List.mem_append.mp hmem with h | h
            · exact hperm1.symm.subset (List.mem_cons_of_mem _ h)
            · exfalso
              simp only [List.mem_singleton] at h
              rw [h] at hp2e
              simp at hp2e
        · rw [hadd1]
          calc s.entries ++
              [Entry.mk nm (create_output_layers (some wl) cfg sf s.next).1 (some wl)]
              ~ (old1 :: rest1) ++
                [Entry.mk nm (create_output_layers (some wl) cfg sf s.next).1 (some wl)] :=
                hperm1.append_right _
            _ = old1 :: (rest1 ++
                [Entry.mk nm (create_output_layers (some wl) cfg sf s.next).1 (some wl)]) :=
                rfl
            _ ~ old1 :: (old2 :: rest2) := hperm2.cons old1
            _ = [old1, old2] ++ rest2 := rfl
        · rw [hadd3]
          simp
        · right
          exact ⟨old2, by simp, hp2e⟩
        · rw [hadd1]
          have hmem : Entry.mk nm (create_output_layers (some wl) cfg sf s.next).1
              (some wl) ∈ rest1 ++
              [Entry.mk nm (create_output_layers (some wl) cfg sf s.next).1 (some wl)] :=
            List.mem_append_right _ (List.mem_singleton.mpr rfl)
          have hcons := hperm2.subset hmem
          rcases List.mem_cons.mp hcons with h | h
          · exfalso
            rw [← h] at hp2e
            simp at hp2e
          · exact h
  · left
    have hf : name_in_config nm F = false := by
      cases hc : name_in_config nm F
      · rfl
      · exact absurd hc ht
    refine ⟨hf, ?_, ?_, ?_⟩ <;> simp [add, hf]

/-- Structural characterisation of Outputs::remove: either no entry owns the
handle and nothing happens, or the owning entry is replaced by an emptied
one (and, when nothing non-empty remains, a fresh fallback entry is
created). -/
theorem remove_entries_shape (cfg : List BarConfig) (wl : Nat) (sf : ℚ) (s : Outputs) :
    ((remove cfg wl sf s).1 = s ∧ (remove cfg wl sf s).2 = []) ∨
    ∃ old rest, (s.entries ~ old :: rest) ∧ old.output = some wl ∧
      (((remove cfg wl sf s).2 = destroyEntry old ∧
        (remove cfg wl sf s).1.entries = rest ++ [Entry.mk old.name [] old.output] ∧
        (remove cfg wl sf s).1.next = s.next ∧
        (rest ++ [Entry.mk old.name [] old.output]).any
          (fun e => !e.infos.isEmpty) = true) ∨
       ((remove cfg wl sf s).2 = destroyEntry old ++
            (create_output_layers none cfg sf s.next).2.1 ∧
        (remove cfg wl sf s).1.entries = (rest ++ [Entry.mk old.name [] old.output]) ++
          [Entry.mk fallbackName (create_output_layers none cfg sf s.next).1 none] ∧
        (remove cfg wl sf s).1.next = (create_output_layers none cfg sf s.next).2.2 ∧
        (rest ++ [Entry.mk old.name [] old.output]).any
          (fun e => !e.infos.isEmpty) = false)) := by
  cases h1 : removeAt? s.entries (fun e => e.output == some wl) with
  | none =>
    left
    refine ⟨?_, ?_⟩ <;> simp [remove, h1]
  | some pr =>
    rcases pr with ⟨old, rest⟩
    obtain ⟨hp, hperm⟩ := removeAt?_some h1
    right
    refine ⟨old, rest, hperm, by simpa using hp, ?_⟩
    cases h2 : (rest ++ [Entry.mk old.name [] old.output]).any
        (fun e => !e.infos.isEmpty) with
    | true =>
      left
      refine ⟨?_, ?_, ?_, rfl⟩ <;> simp [remove, h1, h2]
    | false =>
      right
      refine ⟨?_, ?_, ?_, rfl⟩ <;> simp [remove, h1, h2]

theorem entriesIds_singleton (e : Entry) : entriesIds [e] = entryIds e := by
  simp [entriesIds]

theorem entriesOpen_singleton (e : Entry) :
    entriesOpen [e] = e.infos.countP (fun si => si.menu.menu_info.isSome) := by
  simp [entriesOpen]

theorem countP_none_infos (l : List ShellInfo)
    (h : ∀ si ∈ l, si.menu.menu_info = none) :
    l.countP (fun si => si.menu.menu_info.isSome) = 0 := by
  rw [List.countP_eq_zero]
  intro si hsi
  simp [h si hsi]

theorem syncEntry_facts (cfg : List BarConfig) (sf : ℚ) (e : Entry) :
    (syncEntry cfg sf e).1.name = e.name ∧
    (syncEntry cfg sf e).1.output = e.output ∧
    entryIds (syncEntry cfg sf e).1 = entryIds e ∧
    (syncEntry cfg sf e).1.infos.countP (fun si => si.menu.menu_info.isSome) =
      e.infos.countP (fun si => si.menu.menu_info.isSome) ∧
    (syncEntry cfg sf e).1.infos.length = e.infos.length := by
  have hm := syncInfos_map_idMenu cfg sf e.infos 0
  obtain ⟨h1, h2, h3⟩ := map_idMenu_facts hm
  exact ⟨rfl, rfl, h1, h2, h3⟩

theorem inPlace_facts (cfg : List BarConfig) (sf : ℚ) :
    ∀ (l : List Entry),
      entriesIds ((l.map (syncEntry cfg sf)).map Prod.fst) = entriesIds l ∧
      entriesOpen ((l.map (syncEntry cfg sf)).map Prod.fst) = entriesOpen l ∧
      ((l.map (syncEntry cfg sf)).map Prod.fst).map
          (fun e => (e.name, e.output, e.infos.length)) =
        l.map (fun e => (e.name, e.output, e.infos.length)) := by
  intro l
  induction l with
  | nil => exact ⟨rfl, rfl, rfl⟩
  | cons e rest ih =>
    obtain ⟨f1, f2, f3, f4, f5⟩ := syncEntry_facts cfg sf e
    obtain ⟨i1, i2, i3⟩ := ih
    refine ⟨?_, ?_, ?_⟩
    · simp only [List.map_cons, entriesIds_cons, i1, f3]
    · simp only [List.map_cons, entriesOpen_cons, i2, f4]
    · simp only [List.map_cons, i3, f1, f2, f5]

theorem inv1_new (bar_configs : List BarConfig) (scale_factor : ℚ) :
    Inv1 (Outputs.new bar_configs scale_factor).1 := by
  obtain ⟨hc1, hc2, hc3, hc4, hc5⟩ := create_output_layers_spec none scale_factor bar_configs 0
  refine ⟨?_, ?_, ?_⟩
  · rw [allIds_eq_entriesIds]
    show (entriesIds [Entry.mk fallbackName
        (create_output_layers none bar_configs scale_factor 0).1 none]).Nodup
    rw [entriesIds_singleton]
    exact hc5
  · intro i hi
    rw [allIds_eq_entriesIds] at hi
    rw [show entriesIds (Outputs.new bar_configs scale_factor).1.entries =
        entriesIds [Entry.mk fallbackName
          (create_output_layers none bar_configs scale_factor 0).1 none] from rfl,
      entriesIds_singleton] at hi
    have := hc4 i hi
    show i < (create_output_layers none bar_configs scale_factor 0).2.2
    omega
  · rw [openCount_eq_entriesOpen]
    show entriesOpen [Entry.mk fallbackName
        (create_output_layers none bar_configs scale_factor 0).1 none] ≤ 1
    rw [entriesOpen_singleton]
    have hzero : ((create_output_layers none bar_configs scale_factor 0).1).countP
        (fun si => si.menu.menu_info.isSome) = 0 :=
      countP_none_infos _ (fun si hsi => (hc3 si hsi).2)
    have hz2 : (Entry.mk fallbackName
        (create_output_layers none bar_configs scale_factor 0).1
        none).infos.countP (fun si => si.menu.menu_info.isSome) = 0 := hzero
    omega

theorem inv1_add (cfg : List BarConfig) (F : ConfigOutputs) (nm : List Char)
    (wl : Nat) (sf : ℚ) (s : Outputs) (hs : Inv1 s) : Inv1 (add cfg F nm wl sf s).1 := by
  obtain ⟨hnd, hbound, hopen⟩ := hs
  rw [allIds_eq_entriesIds] at hnd
  rw [openCount_eq_entriesOpen] at hopen
  rcases add_entries_shape cfg F nm wl sf s with
    ⟨_, hent, hnext, _⟩ | ⟨_, hnext, dropped, _, hperm, _, _⟩
  · refine ⟨?_, ?_, ?_⟩
    · rw [allIds_eq_entriesIds, hent, entriesIds_append, entriesIds_singleton]
      show (entriesIds s.entries ++ []).Nodup
      rw [List.append_nil]
      exact hnd
    · intro i hi
      rw [allIds_eq_entriesIds, hent, entriesIds_append, entriesIds_singleton] at hi
      rw [show (entryIds (Entry.mk nm [] (some wl))) = [] from rfl, List.append_nil] at hi
      rw [hnext]
      have := hbound i
      rw [allIds_eq_entriesIds] at this
      exact this hi
    · rw [openCount_eq_entriesOpen, hent, entriesOpen_append, entriesOpen_singleton]
      show entriesOpen s.entries + ([] : List ShellInfo).countP
        (fun si => si.menu.menu_info.isSome) ≤ 1
      simp only [List.countP_nil, Nat.add_zero]
      exact hopen
  · obtain ⟨hc1, hc2, hc3, hc4, hc5⟩ := create_output_layers_spec (some wl) sf cfg s.next
    have hperm2 : entriesIds s.entries ++
        entryIds (Entry.mk nm (create_output_layers (some wl) cfg sf s.next).1 (some wl)) ~
        entriesIds dropped ++ entriesIds (add cfg F nm wl sf s).1.entries := by
      have h0 := entriesIds_perm hperm
      rw [entriesIds_append, entriesIds_append, entriesIds_singleton] at h0
      exact h0
    have hLHS : (entriesIds s.entries ++
        entryIds (Entry.mk nm (create_output_layers (some wl) cfg sf s.next).1
          (some wl))).Nodup := by
      rw [List.nodup_append]
      refine ⟨hnd, hc5, ?_⟩
      intro a ha hb
      have h1 := hbound a (by rw [allIds_eq_entriesIds]; exact ha)
      have h2 := (hc4 a hb).1
      omega
    have hRHS := hperm2.nodup hLHS
    rw [List.nodup_append] at hRHS
    obtain ⟨-, hndFinal, -⟩ := hRHS
    refine ⟨?_, ?_, ?_⟩
    · rw [allIds_eq_entriesIds]
      exact hndFinal
    · intro i hi
      rw [allIds_eq_entriesIds] at hi
      have hmem : i ∈ entriesIds s.entries ++
          entryIds (Entry.mk nm (create_output_layers (some wl) cfg sf s.next).1
            (some wl)) :=
        hperm2.symm.subset (List.mem_append_right _ hi)
      rw [hnext]
      rcases List.mem_append.mp hmem with h | h
      · have := hbound i (by rw [allIds_eq_entriesIds]; exact h)
        omega
      · have := (hc4 i h).2
        omega
    · have hopeq := entriesOpen_perm hperm
      rw [entriesOpen_append, entriesOpen_append, entriesOpen_singleton] at hopeq
      have hzero : ((create_output_layers (some wl) cfg sf s.next).1).countP
          (fun si => si.menu.menu_info.isSome) = 0 :=
        countP_none_infos _ (fun si hsi => (hc3 si hsi).2)
      rw [openCount_eq_entriesOpen]
      have hz2 : (Entry.mk nm (create_output_layers (some wl) cfg sf s.next).1
          (some wl)).infos.countP (fun si => si.menu.menu_info.isSome) = 0 := hzero
      omega

theorem inv1_remove (cfg : List BarConfig) (wl : Nat) (sf : ℚ) (s : Outputs)
    (hs : Inv1 s) : Inv1 (remove cfg wl sf s).1 := by
  obtain ⟨hnd, hbound, hopen⟩ := hs
  rw [allIds_eq_entriesIds] at hnd
  rw [openCount_eq_entriesOpen] at hopen
  rcases remove_entries_shape cfg wl sf s with ⟨hid, -⟩ | ⟨old, rest, hperm, -, hcase⟩
  · rw [hid]
    refine ⟨?_, ?_, ?_⟩
    · rw [allIds_eq_entriesIds]; exact hnd
    · intro i hi
      rw [allIds_eq_entriesIds] at hi
      exact hbound i (by rw [allIds_eq_entriesIds]; exact hi)
    · rw [openCount_eq_entriesOpen]; exact hopen
  · have hpermIds : entriesIds s.entries ~ entryIds old ++ entriesIds rest := by
      have h0 := entriesIds_perm hperm
      rw [entriesIds_cons] at h0
      exact h0
    have hndRest : (entriesIds rest).Nodup := by
      have := hpermIds.nodup hnd
      exact (List.nodup_append.mp this).2.1
    have hboundRest : ∀ i ∈ entriesIds rest, i < s.next := by
      intro i hi
      exact hbound i (by
        rw [allIds_eq_entriesIds]
        exact hpermIds.symm.subset (List.mem_append_right _ hi))
    have hopenEq := entriesOpen_perm hperm
    rw [entriesOpen_cons] at hopenEq
    have hemptyIds : entryIds (Entry.mk old.name [] old.output) = [] := rfl
    have hemptyOpen : (Entry.mk old.name [] old.output).infos.countP
        (fun si => si.menu.menu_info.isSome) = 0 := rfl
    rcases hcase with ⟨-, hent, hnext, -⟩ | ⟨-, hent, hnext, -⟩
    · refine ⟨?_, ?_, ?_⟩
      · rw [allIds_eq_entriesIds, hent, entriesIds_append, entriesIds_singleton,
          hemptyIds, List.append_nil]
        exact hndRest
      · intro i hi
        rw [allIds_eq_entriesIds, hent, entriesIds_append, entriesIds_singleton,
          hemptyIds, List.append_nil] at hi
        rw [hnext]
        exact hboundRest i hi
      · rw [openCount_eq_entriesOpen, hent, entriesOpen_append, entriesOpen_singleton,
          hemptyOpen]
        omega
    · obtain ⟨hc1, hc2, hc3, hc4, hc5⟩ := create_output_layers_spec none sf cfg s.next
      have hfbIds : entryIds (Entry.mk fallbackName
          (create_output_layers none cfg sf s.next).1 none) =
          (create_output_layers none cfg sf s.next).1.flatMap infoIds := rfl
      refine ⟨?_, ?_, ?_⟩
      · rw [allIds_eq_entriesIds, hent, entriesIds_append, entriesIds_append,
          entriesIds_singleton, entriesIds_singleton, hemptyIds, List.append_nil, hfbIds]
        rw [List.nodup_append]
        refine ⟨hndRest, hc5, ?_⟩
        intro a ha hb
        have h1 := hboundRest a ha
        have h2 := (hc4 a hb).1
        omega
      · intro i hi
        rw [allIds_eq_entriesIds, hent, entriesIds_append, entriesIds_append,
          entriesIds_singleton, entriesIds_singleton, hemptyIds, List.append_nil,
          hfbIds] at hi
        rw [hnext]
        rcases List.mem_append.mp hi with h | h
        · have := hboundRest i h
          omega
        · have := (hc4 i h).2
          omega
      · rw [openCount_eq_entriesOpen, hent, entriesOpen_append, entriesOpen_append,
          entriesOpen_singleton, entriesOpen_singleton, hemptyOpen]
        have hzero : ((create_output_layers none cfg sf s.next).1).countP
            (fun si => si.menu.menu_info.isSome) = 0 :=
          countP_none_infos _ (fun si hsi => (hc3 si hsi).2)
        have hz2 : (Entry.mk fallbackName (create_output_layers none cfg sf s.next).1
            none).infos.countP (fun si => si.menu.menu_info.isSome) = 0 := hzero
        omega

theorem inv1_inPlace (cfg : List BarConfig) (sf : ℚ) (s : Outputs) (hs : Inv1 s) :
    Inv1 (inPlace cfg sf s).1 := by
  obtain ⟨hnd, hbound, hopen⟩ := hs
  obtain ⟨i1, i2, -⟩ := inPlace_facts cfg sf s.entries
  have hent : (inPlace cfg sf s).1.entries =
      (s.entries.map (syncEntry cfg sf)).map Prod.fst := rfl
  have hnext : (inPlace cfg sf s).1.next = s.next := rfl
  refine ⟨?_, ?_, ?_⟩
  · rw [allIds_eq_entriesIds, hent, i1, ← allIds_eq_entriesIds]
    exact hnd
  · intro i hi
    rw [allIds_eq_entriesIds, hent, i1, ← allIds_eq_entriesIds] at hi
    rw [hnext]
    exact hbound i hi
  · rw [openCount_eq_entriesOpen, hent, i2, ← openCount_eq_entriesOpen]
    exact hopen

theorem inv1_sync (cfg : List BarConfig) (F : ConfigOutputs) (sf : ℚ) (s : Outputs)
    (hs : Inv1 s) : Inv1 (sync cfg F sf s).1 := by
  exact inv1_inPlace cfg sf _
    (removeAll_preserves (fun h s hs => inv1_remove cfg h sf s hs) _ _
      (addAll_preserves (fun nm h s hs => inv1_add cfg F nm h sf s hs) _ _ hs))

theorem inv1_mapped_closer (f : ShellInfo → ShellInfo)
    (hf : ∀ si, (f si).id = si.id ∧ (f si).menu.id = si.menu.id)
    (hshrink : ∀ si, (f si).menu.menu_info.isSome = true →
      si.menu.menu_info.isSome = true)
    (s : Outputs) (hs : Inv1 s) :
    Inv1 (Outputs.mk (s.entries.map (fun e => { e with infos := e.infos.map f }))
      s.next) := by
  obtain ⟨hnd, hbound, hopen⟩ := hs
  obtain ⟨ha, ho, -, -⟩ := mapped_state_facts f hf s
  refine ⟨?_, ?_, ?_⟩
  · rw [ha]; exact hnd
  · intro i hi
    rw [ha] at hi
    exact hbound i hi
  · rw [ho]
    have hb : (pairs s).countP (fun si => (f si).menu.menu_info.isSome) ≤
        (pairs s).countP (fun si => si.menu.menu_info.isSome) :=
      List.countP_mono_left (fun si _ h => hshrink si h)
    exact hb.trans hopen

theorem inv1_toggle (id : Nat) (mt : MenuType) (ref : ButtonUIRef) (rk : Bool)
    (s : Outputs) (hs : Inv1 s) : Inv1 (toggle_menu id mt ref rk s).1 := by
  obtain ⟨hnd, hbound, hopen⟩ := hs
  rw [toggle_menu_fst]
  obtain ⟨ha, ho, -, -⟩ := mapped_state_facts (fun si => (togglePair id mt ref si).1)
    (fun si => togglePair_ids id mt ref si) s
  refine ⟨?_, ?_, ?_⟩
  · rw [ha]; exact hnd
  · intro i hi
    rw [ha] at hi
    exact hbound i hi
  · rw [ho]
    have hb : (pairs s).countP
        (fun si => ((togglePair id mt ref si).1).menu.menu_info.isSome) ≤
        (pairs s).countP (ownsId id) := by
      apply List.countP_mono_left
      intro si _ hcur
      by_contra hnot
      have hfalse : ownsId id si = false := by
        cases hcase : ownsId id si
        · rfl
        · exact absurd hcase hnot
      rw [togglePair_not_owns mt ref hfalse] at hcur
      simp at hcur
    exact hb.trans (countP_owns_le_one id (pairs s) hnd)

theorem closeMenuPair_ids (id : Nat) (si : ShellInfo) :
    ((if si.id == id || si.menu.id == id then
        { si with menu := (Menu.close si.menu).1 } else si) : ShellInfo).id = si.id ∧
    ((if si.id == id || si.menu.id == id then
        { si with menu := (Menu.close si.menu).1 } else si) : ShellInfo).menu.id =
      si.menu.id := by
  split
  · exact ⟨rfl, Menu.close_id si.menu⟩
  · exact ⟨rfl, rfl⟩

theorem closeMenuPair_shrinks (id : Nat) (si : ShellInfo) :
    ((if si.id == id || si.menu.id == id then
        { si with menu := (Menu.close si.menu).1 } else si) : ShellInfo).menu.menu_info.isSome
      = true → si.menu.menu_info.isSome = true := by
  split
  · intro h
    rw [show ({ si with menu := (Menu.close si.menu).1 } : ShellInfo).menu =
      (Menu.close si.menu).1 from rfl, Menu.close_menu_info] at h
    simp at h
  · exact fun h => h

theorem closeIfPair_ids (mt : MenuType) (si : ShellInfo) :
    (({ si with menu := (si.menu.close_if mt).1 } : ShellInfo)).id = si.id ∧
    (({ si with menu := (si.menu.close_if mt).1 } : ShellInfo)).menu.id = si.menu.id :=
  ⟨rfl, Menu.close_if_id si.menu mt⟩

theorem closeIfCondPair_ids (id : Nat) (mt : MenuType) (si : ShellInfo) :
    ((if si.id == id || si.menu.id == id then
        { si with menu := (si.menu.close_if mt).1 } else si) : ShellInfo).id = si.id ∧
    ((if si.id == id || si.menu.id == id then
        { si with menu := (si.menu.close_if mt).1 } else si) : ShellInfo).menu.id =
      si.menu.id := by
  split
  · exact ⟨rfl, Menu.close_if_id si.menu mt⟩
  · exact ⟨rfl, rfl⟩

theorem closeIfCondPair_shrinks (id : Nat) (mt : MenuType) (si : ShellInfo) :
    ((if si.id == id || si.menu.id == id then
        { si with menu := (si.menu.close_if mt).1 } else si) :
      ShellInfo).menu.menu_info.isSome = true → si.menu.menu_info.isSome = true := by
  split
  · exact Menu.close_if_shrinks si.menu mt
  · exact fun h => h

theorem closeAllPair_ids (si : ShellInfo) :
    ((if si.menu.menu_info.isSome then { si with menu := (si.menu.close).1 } else si) :
      ShellInfo).id = si.id ∧
    ((if si.menu.menu_info.isSome then { si with menu := (si.menu.close).1 } else si) :
      ShellInfo).menu.id = si.menu.id := by
  split
  · exact ⟨rfl, Menu.close_id si.menu⟩
  · exact ⟨rfl, rfl⟩

theorem closeAllPair_shrinks (si : ShellInfo) :
    ((if si.menu.menu_info.isSome then { si with menu := (si.menu.close).1 } else si) :
      ShellInfo).menu.menu_info.isSome = true → si.menu.menu_info.isSome = true := by
  split
  · intro h
    rw [show ({ si with menu := (Menu.close si.menu).1 } : ShellInfo).menu =
      (Menu.close si.menu).1 from rfl, Menu.close_menu_info] at h
    simp at h
  · exact fun h => h

theorem inv1_close_menu (id : Nat) (esc : Bool) (s : Outputs) (hs : Inv1 s) :
    Inv1 (close_menu id esc s).1 := by
  rw [close_menu_fst]
  exact inv1_mapped_closer _ (closeMenuPair_ids id) (closeMenuPair_shrinks id) s hs

theorem inv1_close_menu_if (id : Nat) (mt : MenuType) (esc : Bool) (s : Outputs)
    (hs : Inv1 s) : Inv1 (close_menu_if id mt esc s).1 := by
  rw [close_menu_if_fst]
  exact inv1_mapped_closer _ (closeIfCondPair_ids id mt) (closeIfCondPair_shrinks id mt) s hs

theorem inv1_close_all_menu_if (mt : MenuType) (esc : Bool) (s : Outputs)
    (hs : Inv1 s) : Inv1 (close_all_menu_if mt esc s).1 := by
  rw [close_all_menu_if_fst]
  exact inv1_mapped_closer _ (closeIfPair_ids mt)
    (fun si => Menu.close_if_shrinks si.menu mt) s hs

theorem inv1_close_all_menus (esc : Bool) (s : Outputs) (hs : Inv1 s) :
    Inv1 (close_all_menus esc s).1 := by
  rw [close_all_menus_fst]
  exact inv1_mapped_closer _ closeAllPair_ids closeAllPair_shrinks s hs

theorem inv1_applyOp (s : Outputs) (op : Op) (hs : Inv1 s) : Inv1 (applyOp s op).1 := by
  cases op with
  | add cfg F nm wl sf => exact inv1_add cfg F nm wl sf s hs
  | remove cfg wl sf => exact inv1_remove cfg wl sf s hs
  | sync cfg F sf => exact inv1_sync cfg F sf s hs
  | toggle_menu id mt ref rk => exact inv1_toggle id mt ref rk s hs
  | close_menu id esc => exact inv1_close_menu id esc s hs
  | close_menu_if id mt esc => exact inv1_close_menu_if id mt esc s hs
  | close_all_menu_if mt esc => exact inv1_close_all_menu_if mt esc s hs
  | close_all_menus esc => exact inv1_close_all_menus esc s hs

theorem toggle_closes_others (id : Nat) (mt : MenuType) (ref : ButtonUIRef) (rk : Bool)
    (s : Outputs) :
    ((pairs (toggle_menu id mt ref rk s).1).filter
      (fun si => !(ownsId id si))).all (fun si => si.menu.menu_info.isNone) = true := by
  rw [toggle_menu_fst]
  obtain ⟨-, -, hp, -⟩ := mapped_state_facts (fun si => (togglePair id mt ref si).1)
    (fun si => togglePair_ids id mt ref si) s
  rw [hp, List.all_eq_true]
  intro si hsi
  rw [List.mem_filter] at hsi
  obtain ⟨hmem, hnot⟩ := hsi
  rw [List.mem_map] at hmem
  obtain ⟨si0, hsi0, heq⟩ := hmem
  subst heq
  have hids := togglePair_ids id mt ref si0
  have howns : ownsId id ((togglePair id mt ref si0).1) = ownsId id si0 := by
    unfold ownsId
    rw [hids.1, hids.2]
  rw [howns] at hnot
  have hfalse : ownsId id si0 = false := by simpa using hnot
  rw [togglePair_not_owns mt ref hfalse]
  rfl

theorem filterMap_kbd_flatMap_nil {β : Type} (g : β → List Request) (l : List β)
    (hg : ∀ b ∈ l, (g b).filterMap kbdTarget = []) :
    (l.flatMap g).filterMap kbdTarget = [] := by
  induction l with
  | nil => rfl
  | cons b rest ih =>
    rw [List.flatMap_cons, List.filterMap_append, hg b (List.mem_cons_self _ _),
      ih (fun b2 hb2 => hg b2 (List.mem_cons_of_mem _ hb2))]
    rfl

theorem Menu.close_snd_no_kbd (m : Menu) :
    ((Menu.close m).2).filterMap kbdTarget = [] := by
  unfold Menu.close
  split <;> rfl

theorem Menu.close_if_snd_no_kbd (m : Menu) (mt : MenuType) :
    ((Menu.close_if m mt).2).filterMap kbdTarget = [] := by
  unfold Menu.close_if
  split
  · split <;> rfl
  · rfl

theorem togglePair_snd_no_kbd (id : Nat) (mt : MenuType) (ref : ButtonUIRef)
    (si : ShellInfo) : ((togglePair id mt ref si).2).filterMap kbdTarget = [] := by
  unfold togglePair
  split
  · show ((Menu.toggle si.menu mt ref).2).filterMap kbdTarget = []
    unfold Menu.toggle
    split
    · split <;> rfl
    · rfl
  · show ((Menu.close si.menu).2).filterMap kbdTarget = []
    exact Menu.close_snd_no_kbd si.menu

/-- Every keyboard-interactivity request of toggle_menu targets the bar
surface id of a pair that owns the given surface id. -/
theorem toggle_menu_kbd_targets (id : Nat) (mt : MenuType) (ref : ButtonUIRef)
    (rk : Bool) (s : Outputs) :
    ∀ t ∈ (toggle_menu id mt ref rk s).2.filterMap kbdTarget,
      ∃ si, si ∈ pairs s ∧ ownsId id si = true ∧ si.id = t := by
  intro t ht
  have htask : ((s.entries.map (fun e =>
      ({ e with infos := (e.infos.map (togglePair id mt ref)).map Prod.fst },
        (e.infos.map (togglePair id mt ref)).flatMap Prod.snd))).flatMap
      Prod.snd).filterMap kbdTarget = [] := by
    apply filterMap_kbd_flatMap_nil
    intro pr hpr
    rw [List.mem_map] at hpr
    obtain ⟨e, -, heq⟩ := hpr
    subst heq
    apply filterMap_kbd_flatMap_nil
    intro pr2 hpr2
    rw [List.mem_map] at hpr2
    obtain ⟨si, -, heq2⟩ := hpr2
    subst heq2
    exact togglePair_snd_no_kbd id mt ref si
  simp only [toggle_menu] at ht
  split at ht
  · split at ht
    next tid heq =>
      rw [Option.map_eq_some'] at heq
      obtain ⟨si0, hlast, hid0⟩ := heq
      have hsi0mem := List.mem_of_getLast?_eq_some hlast
      rw [List.mem_filter] at hsi0mem
      split at ht <;>
      · rw [List.filterMap_append, htask, List.nil_append] at ht
        simp only [List.filterMap, kbdTarget] at ht
        rw [List.mem_singleton] at ht
        exact ⟨si0, hsi0mem.1, hsi0mem.2, by rw [hid0, ht]⟩
    next heq =>
      rw [htask] at ht
      simp at ht
  · rw [htask] at ht
    simp at ht

/-- Every keyboard-interactivity request of close_menu targets exactly the
caller-supplied surface id. -/
theorem close_menu_kbd_targets (id : Nat) (esc : Bool) (s : Outputs) :
    ∀ t ∈ (close_menu id esc s).2.filterMap kbdTarget, t = id := by
  intro t ht
  have htask : ∀ tk, (match ((pairs s).filter
      (fun si => si.id == id || si.menu.id == id)).getLast? with
      | some si => (Menu.close si.menu).2
      | none => ([] : List Request)) = tk → tk.filterMap kbdTarget = [] := by
    intro tk htk
    split at htk
    · rw [← htk]
      exact Menu.close_snd_no_kbd _
    · rw [← htk]
      rfl
  simp only [close_menu] at ht
  split at ht
  · rw [List.filterMap_append, htask _ rfl, List.nil_append] at ht
    simp only [List.filterMap, kbdTarget] at ht
    rw [List.mem_singleton] at ht
    exact ht
  · rw [htask _ rfl] at ht
    simp at ht

/-- Every keyboard-interactivity request of close_menu_if targets exactly
the caller-supplied surface id. -/
theorem close_menu_if_kbd_targets (id : Nat) (mt : MenuType) (esc : Bool) (s : Outputs) :
    ∀ t ∈ (close_menu_if id mt esc s).2.filterMap kbdTarget, t = id := by
  intro t ht
  have htask : ∀ tk, (match ((pairs s).filter
      (fun si => si.id == id || si.menu.id == id)).getLast? with
      | some si => (Menu.close_if si.menu mt).2
      | none => ([] : List Request)) = tk → tk.filterMap kbdTarget = [] := by
    intro tk htk
    split at htk
    · rw [← htk]
      exact Menu.close_if_snd_no_kbd _ mt
    · rw [← htk]
      rfl
  simp only [close_menu_if] at ht
  split at ht
  · rw [List.filterMap_append, htask _ rfl, List.nil_append] at ht
    simp only [List.filterMap, kbdTarget] at ht
    rw [List.mem_singleton] at ht
    exact ht
  · rw [htask _ rfl] at ht
    simp at ht

/-- The bar ids of the pairs of a registry built by mapping a
pair-producing function over every entry agree with the original bar
ids. -/
theorem pairform_ids (g : ShellInfo → ShellInfo × List Request)
    (hg : ∀ si, (g si).1.id = si.id) :
    ∀ (l : List Entry),
      (((l.map (fun e =>
          (({ e with infos := (e.infos.map g).map Prod.fst } : Entry),
            (e.infos.map g).flatMap Prod.snd))).map Prod.fst).flatMap Entry.infos).map
          ShellInfo.id =
      (l.flatMap Entry.infos).map ShellInfo.id := by
  intro l
  induction l with
  | nil => rfl
  | cons e rest ih =>
    simp only [List.map_cons, List.flatMap_cons, List.map_append, ih]
    congr 1
    show ((e.infos.map g).map Prod.fst).map ShellInfo.id = e.infos.map ShellInfo.id
    rw [List.map_map, List.map_map]
    refine List.map_congr_left ?_
    intro si _
    exact hg si

/-- Every keyboard-interactivity request of close_all_menu_if targets the
bar surface id of some pair of the registry. -/
theorem close_all_menu_if_kbd_targets (mt : MenuType) (esc : Bool) (s : Outputs) :
    ∀ t ∈ (close_all_menu_if mt esc s).2.filterMap kbdTarget,
      ∃ si, si ∈ pairs s ∧ si.id = t := by
  intro t ht
  have htask : ((s.entries.map (fun (e : Entry) =>
      ({ e with infos := (e.infos.map (fun (si : ShellInfo) =>
          ({ si with menu := (si.menu.close_if mt).1 }, (si.menu.close_if mt).2))).map Prod.fst },
        (e.infos.map (fun (si : ShellInfo) =>
          ({ si with menu := (si.menu.close_if mt).1 }, (si.menu.close_if mt).2))).flatMap Prod.snd))).flatMap
      Prod.snd).filterMap kbdTarget = [] := by
    apply filterMap_kbd_flatMap_nil
    intro pr hpr
    rw [List.mem_map] at hpr
    obtain ⟨e, -, heq⟩ := hpr
    subst heq
    apply filterMap_kbd_flatMap_nil
    intro pr2 hpr2
    rw [List.mem_map] at hpr2
    obtain ⟨si, -, heq2⟩ := hpr2
    subst heq2
    exact Menu.close_if_snd_no_kbd si.menu mt
  simp only [close_all_menu_if] at ht
  split at ht
  · rw [List.filterMap_append, htask, List.nil_append] at ht
    rw [List.mem_filterMap] at ht
    obtain ⟨req, hreq, hkt⟩ := ht
    rw [List.mem_map] at hreq
    obtain ⟨si1, hsi1, heqr⟩ := hreq
    subst heqr
    simp only [kbdTarget, Option.some.injEq] at hkt
    have hidmem : si1.id ∈ ((s.entries.flatMap Entry.infos).map ShellInfo.id) := by
      have hp := pairform_ids (fun (si : ShellInfo) =>
          ({ si with menu := (si.menu.close_if mt).1 }, (si.menu.close_if mt).2))
        (fun si => rfl) s.entries
      rw [← hp]
      exact List.mem_map_of_mem ShellInfo.id hsi1
    rw [List.mem_map] at hidmem
    obtain ⟨si0, hsi0, hide⟩ := hidmem
    exact ⟨si0, hsi0, by rw [hide, hkt]⟩
  · rw [htask] at ht
    simp at ht

/-- Every keyboard-interactivity request of close_all_menus targets the bar
surface id of some pair of the registry. -/
theorem close_all_menus_kbd_targets (esc : Bool) (s : Outputs) :
    ∀ t ∈ (close_all_menus esc s).2.filterMap kbdTarget,
      ∃ si, si ∈ pairs s ∧ si.id = t := by
  intro t ht
  have hgid : ∀ (si : ShellInfo),
      ((if si.menu.menu_info.isSome then
          ({ si with menu := (si.menu.close).1 }, (si.menu.close).2)
        else (si, [])) : ShellInfo × List Request).1.id = si.id := by
    intro si
    split <;> rfl
  have hgkbd : ∀ (si : ShellInfo),
      ((if si.menu.menu_info.isSome then
          ({ si with menu := (si.menu.close).1 }, (si.menu.close).2)
        else (si, [])) : ShellInfo × List Request).2.filterMap kbdTarget = [] := by
    intro si
    split
    · exact Menu.close_snd_no_kbd si.menu
    · rfl
  have htask : ((s.entries.map (fun (e : Entry) =>
      ({ e with infos := (e.infos.map (fun (si : ShellInfo) =>
          if si.menu.menu_info.isSome then
            ({ si with menu := (si.menu.close).1 }, (si.menu.close).2)
          else (si, []))).map Prod.fst },
        (e.infos.map (fun (si : ShellInfo) =>
          if si.menu.menu_info.isSome then
            ({ si with menu := (si.menu.close).1 }, (si.menu.close).2)
          else (si, []))).flatMap Prod.snd))).flatMap
      Prod.snd).filterMap kbdTarget = [] := by
    apply filterMap_kbd_flatMap_nil
    intro pr hpr
    rw [List.mem_map] at hpr
    obtain ⟨e, -, heq⟩ := hpr
    subst heq
    apply filterMap_kbd_flatMap_nil
    intro pr2 hpr2
    rw [List.mem_map] at hpr2
    obtain ⟨si, -, heq2⟩ := hpr2
    subst heq2
    exact hgkbd si
  simp only [close_all_menus] at ht
  split at ht
  · rw [List.filterMap_append, htask, List.nil_append] at ht
    rw [List.mem_filterMap] at ht
    obtain ⟨req, hreq, hkt⟩ := ht
    rw [List.mem_map] at hreq
    obtain ⟨si1, hsi1, heqr⟩ := hreq
    subst heqr
    simp only [kbdTarget, Option.some.injEq] at hkt
    have hidmem : si1.id ∈ ((s.entries.flatMap Entry.infos).map ShellInfo.id) := by
      have hp := pairform_ids (fun (si : ShellInfo) =>
          if si.menu.menu_info.isSome then
            ({ si with menu := (si.menu.close).1 }, (si.menu.close).2)
          else (si, [])) hgid s.entries
      rw [← hp]
      exact List.mem_map_of_mem ShellInfo.id hsi1
    rw [List.mem_map] at hidmem
    obtain ⟨si0, hsi0, hide⟩ := hidmem
    exact ⟨si0, hsi0, by rw [hide, hkt]⟩
  · rw [htask] at ht
    simp at ht

/-- Claim C4 counterexample: on a registry whose single pair has bar surface
0 and menu surface 1 with its menu open, close_menu called with the menu
surface id 1 and escape handling enabled emits a keyboard-interactivity
request that targets the menu surface id 1, not the bar surface. -/
theorem C4_counterexample_close_menu_targets_menu_surface :
    (((close_menu 1 true
          (run (Outputs.new [cfgA] 1).1
            [Op.toggle_menu 0 MenuType.Settings { ref := 0 } true])).2.filterMap
        kbdTarget) = [1]) ∧
    ((pairs (run (Outputs.new [cfgA] 1).1
        [Op.toggle_menu 0 MenuType.Settings { ref := 0 } true])).map
      (fun si => (si.id, si.menu.id)) = [(0, 1)]) := by
  exact ⟨by decide, by decide⟩

/-- Claim C1: starting from a fresh registry, after any sequence of
registry operations at most one Surface Pair in the whole registry has a
non-empty menu slot; and a toggle_menu call leaves every pair other than
the addressed one closed. -/
theorem C1_at_most_one_open_menu (bar_configs : List BarConfig) (scale_factor : ℚ)
    (ops : List Op) (id : Nat) (mt : MenuType) (ref : ButtonUIRef) (rk : Bool) :
    openCount (run (Outputs.new bar_configs scale_factor).1 ops) ≤ 1 ∧
    ((pairs (toggle_menu id mt ref rk
        (run (Outputs.new bar_configs scale_factor).1 ops)).1).filter
      (fun si => !(ownsId id si))).all (fun si => si.menu.menu_info.isNone) = true := by
  have hinv : Inv1 (run (Outputs.new bar_configs scale_factor).1 ops) :=
    @run_preserves_of Inv1 (fun _ => True)
      (fun s op _ hs => inv1_applyOp s op hs) ops _
      (fun _ _ => trivial) (inv1_new bar_configs scale_factor)
  exact ⟨hinv.2.2, toggle_closes_others id mt ref rk _⟩

/-- Claim C4 (amended): toggle_menu's keyboard-interactivity requests
target the bar surface of a pair owning the given id; close_all_menu_if
and close_all_menus target only bar surfaces of the registry's pairs;
close_menu and close_menu_if emit their keyboard request on the
caller-supplied surface id verbatim, which may be a menu surface id. -/
theorem C4_keyboard_request_targets (s : Outputs) (id : Nat) (mt : MenuType)
    (ref : ButtonUIRef) (rk : Bool) (esc : Bool) :
    (∀ t ∈ (toggle_menu id mt ref rk s).2.filterMap kbdTarget,
      ∃ si, si ∈ pairs s ∧ ownsId id si = true ∧ si.id = t) ∧
    (∀ t ∈ (close_menu id esc s).2.filterMap kbdTarget, t = id) ∧
    (∀ t ∈ (close_menu_if id mt esc s).2.filterMap kbdTarget, t = id) ∧
    (∀ t ∈ (close_all_menu_if mt esc s).2.filterMap kbdTarget,
      ∃ si, si ∈ pairs s ∧ si.id = t) ∧
    (∀ t ∈ (close_all_menus esc s).2.filterMap kbdTarget,
      ∃ si, si ∈ pairs s ∧ si.id = t) :=
  ⟨toggle_menu_kbd_targets id mt ref rk s, close_menu_kbd_targets id esc s,
    close_menu_if_kbd_targets id mt esc s, close_all_menu_if_kbd_targets mt esc s,
    close_all_menus_kbd_targets esc s⟩

/-- Witness for C4_keyboard_request_targets: on a fresh registry the
keyboard request of a toggle with the bar surface id 0 indeed targets the
bar surface of the owning pair. -/
theorem C4_keyboard_request_targets_witness :
    ∃ si, si ∈ pairs (Outputs.new [cfgA] 1).1 ∧ ownsId 0 si = true ∧ si.id = 0 :=
  (C4_keyboard_request_targets (Outputs.new [cfgA] 1).1 0 MenuType.Settings
    (ButtonUIRef.mk 0) true true).1 0 (by decide)

/-- Claim C10: a toggle_menu whose surface id matches no bar or menu
surface closes every open menu, issues no keyboard-interactivity request
even when one was requested, and leaves the entry structure (names,
handles, pair counts) and the id counter unchanged. -/
theorem C10_toggle_menu_unknown_id (s : Outputs) (id : Nat) (mt : MenuType)
    (ref : ButtonUIRef) (rk : Bool) (h : id ∉ allIds s) :
    ((pairs (toggle_menu id mt ref rk s).1).all
      (fun si => si.menu.menu_info.isNone) = true) ∧
    ((toggle_menu id mt ref rk s).2.filterMap kbdTarget = []) ∧
    ((toggle_menu id mt ref rk s).1.entries.map
        (fun e => (e.name, e.output, e.infos.length)) =
      s.entries.map (fun e => (e.name, e.output, e.infos.length))) ∧
    (toggle_menu id mt ref rk s).1.next = s.next := by
  have howns : ∀ si ∈ pairs s, ownsId id si = false := by
    intro si hsi
    cases hcase : ownsId id si
    · rfl
    · exfalso
      apply h
      unfold allIds
      exact List.mem_flatMap.mpr ⟨si, hsi, ownsId_mem hcase⟩
  refine ⟨?_, ?_, ?_, ?_⟩
  · rw [toggle_menu_fst]
    obtain ⟨-, -, hp, -⟩ := mapped_state_facts (fun si => (togglePair id mt ref si).1)
      (fun si => togglePair_ids id mt ref si) s
    rw [hp, List.all_eq_true]
    intro si hsi
    rw [List.mem_map] at hsi
    obtain ⟨si0, hsi0, heq⟩ := hsi
    subst heq
    rw [togglePair_not_owns mt ref (howns si0 hsi0)]
    rfl
  · rw [List.eq_nil_iff_forall_not_mem]
    intro t ht
    obtain ⟨si, hsi, hown, -⟩ := toggle_menu_kbd_targets id mt ref rk s t ht
    rw [howns si hsi] at hown
    simp at hown
  · rw [toggle_menu_fst]
    exact (mapped_state_facts (fun si => (togglePair id mt ref si).1)
      (fun si => togglePair_ids id mt ref si) s).2.2.2
  · rw [toggle_menu_fst]

/-- Witness for C10_toggle_menu_unknown_id on a registry with one pair
whose menu is open, toggled with the unknown id 99. -/
theorem C10_toggle_menu_unknown_id_witness :
    ((pairs (toggle_menu 99 MenuType.Settings (ButtonUIRef.mk 0) true
        (run (Outputs.new [cfgA] 1).1
          [Op.toggle_menu 0 MenuType.Settings (ButtonUIRef.mk 0) true])).1).all
      (fun si => si.menu.menu_info.isNone) = true) ∧
    ((toggle_menu 99 MenuType.Settings (ButtonUIRef.mk 0) true
        (run (Outputs.new [cfgA] 1).1
          [Op.toggle_menu 0 MenuType.Settings (ButtonUIRef.mk 0) true])).2.filterMap
      kbdTarget = []) ∧
    ((toggle_menu 99 MenuType.Settings (ButtonUIRef.mk 0) true
        (run (Outputs.new [cfgA] 1).1
          [Op.toggle_menu 0 MenuType.Settings (ButtonUIRef.mk 0) true])).1.entries.map
        (fun e => (e.name, e.output, e.infos.length)) =
      (run (Outputs.new [cfgA] 1).1
          [Op.toggle_menu 0 MenuType.Settings (ButtonUIRef.mk 0) true]).entries.map
        (fun e => (e.name, e.output, e.infos.length))) ∧
    (toggle_menu 99 MenuType.Settings (ButtonUIRef.mk 0) true
        (run (Outputs.new [cfgA] 1).1
          [Op.toggle_menu 0 MenuType.Settings (ButtonUIRef.mk 0) true])).1.next =
      (run (Outputs.new [cfgA] 1).1
        [Op.toggle_menu 0 MenuType.Settings (ButtonUIRef.mk 0) true]).next :=
  C10_toggle_menu_unknown_id _ 99 MenuType.Settings (ButtonUIRef.mk 0) true (by decide)

theorem create_output_layers_length (wl : Option Nat) (cfgs : List BarConfig) (sf : ℚ)
    (n : Nat) : (create_output_layers wl cfgs sf n).1.length = cfgs.length := by
  have h := (create_output_layers_spec wl sf cfgs n).2.1
  have := congrArg List.length h
  simpa using this

theorem lenOk_of_struct_eq {n : Nat} {l₁ l₂ : List Entry}
    (h : l₁.map (fun e => (e.name, e.output, e.infos.length)) =
      l₂.map (fun e => (e.name, e.output, e.infos.length)))
    (hs : ∀ e ∈ l₂, e.infos.length = 0 ∨ e.infos.length = n) :
    ∀ e ∈ l₁, e.infos.length = 0 ∨ e.infos.length = n := by
  intro e he
  have hmem : (e.name, e.output, e.infos.length) ∈
      l₂.map (fun e => (e.name, e.output, e.infos.length)) := by
    rw [← h]
    exact List.mem_map_of_mem _ he
  rw [List.mem_map] at hmem
  obtain ⟨e2, he2, heq⟩ := hmem
  have hlen : e2.infos.length = e.infos.length := congrArg (fun p => p.2.2) heq
  rw [← hlen]
  exact hs e2 he2

theorem lenOk_add (n : Nat) (cfg : List BarConfig) (F : ConfigOutputs) (nm : List Char)
    (wl : Nat) (sf : ℚ) (s : Outputs) (hlen : cfg.length = n) (hs : lenOk n s) :
    lenOk n (add cfg F nm wl sf s).1 := by
  rcases add_entries_shape cfg F nm wl sf s with
    ⟨-, hent, -, -⟩ | ⟨-, -, dropped, -, hperm, -, -⟩
  · intro e he
    rw [hent] at he
    rcases List.mem_append.mp he with h | h
    · exact hs e h
    · rw [List.mem_singleton] at h
      subst h
      left; rfl
  · intro e he
    have hmem : e ∈ s.entries ++
        [Entry.mk nm (create_output_layers (some wl) cfg sf s.next).1 (some wl)] :=
      hperm.symm.subset (List.mem_append_right _ he)
    rcases List.mem_append.mp hmem with h | h
    · exact hs e h
    · rw [List.mem_singleton] at h
      subst h
      right
      show (create_output_layers (some wl) cfg sf s.next).1.length = n
      rw [create_output_layers_length, hlen]

theorem lenOk_remove (n : Nat) (cfg : List BarConfig) (wl : Nat) (sf : ℚ) (s : Outputs)
    (hlen : cfg.length = n) (hs : lenOk n s) : lenOk n (remove cfg wl sf s).1 := by
  rcases remove_entries_shape cfg wl sf s with ⟨hid, -⟩ | ⟨old, rest, hperm, -, hcase⟩
  · rw [hid]; exact hs
  · have hrest : ∀ e ∈ rest, e.infos.length = 0 ∨ e.infos.length = n := by
      intro e he
      exact hs e (hperm.symm.subset (List.mem_cons_of_mem _ he))
    rcases hcase with ⟨-, hent, -, -⟩ | ⟨-, hent, -, -⟩
    · intro e he
      rw [hent] at he
      rcases List.mem_append.mp he with h | h
      · exact hrest e h
      · rw [List.mem_singleton] at h
        subst h
        left; rfl
    · intro e he
      rw [hent] at he
      rcases List.mem_append.mp he with h | h
      · rcases List.mem_append.mp h with h2 | h2
        · exact hrest e h2
        · rw [List.mem_singleton] at h2
          subst h2
          left; rfl
      · rw [List.mem_singleton] at h
        subst h
        right
        show (create_output_layers none cfg sf s.next).1.length = n
        rw [create_output_layers_length, hlen]

theorem lenOk_inPlace (n : Nat) (cfg : List BarConfig) (sf : ℚ) (s : Outputs)
    (hs : lenOk n s) : lenOk n (inPlace cfg sf s).1 := by
  obtain ⟨-, -, i3⟩ := inPlace_facts cfg sf s.entries
  have hent : (inPlace cfg sf s).1.entries =
      (s.entries.map (syncEntry cfg sf)).map Prod.fst := rfl
  intro e he
  rw [hent] at he
  exact lenOk_of_struct_eq i3 hs e he

theorem lenOk_sync (n : Nat) (cfg : List BarConfig) (F : ConfigOutputs) (sf : ℚ)
    (s : Outputs) (hlen : cfg.length = n) (hs : lenOk n s) :
    lenOk n (sync cfg F sf s).1 := by
  exact lenOk_inPlace n cfg sf _
    (removeAll_preserves (fun h s hs => lenOk_remove n cfg h sf s hlen hs) _ _
      (addAll_preserves (fun nm h s hs => lenOk_add n cfg F nm h sf s hlen hs) _ _ hs))

theorem lenOk_mapped (n : Nat) (f : ShellInfo → ShellInfo)
    (hf : ∀ si, (f si).id = si.id ∧ (f si).menu.id = si.menu.id) (s : Outputs)
    (hs : lenOk n s) :
    lenOk n (Outputs.mk (s.entries.map (fun e => { e with infos := e.infos.map f }))
      s.next) := by
  obtain ⟨-, -, -, hstruct⟩ := mapped_state_facts f hf s
  intro e he
  exact lenOk_of_struct_eq hstruct hs e he

theorem lenOk_applyOp (n : Nat) (s : Outputs) (op : Op) (hop : opLenOk n op)
    (hs : lenOk n s) : lenOk n (applyOp s op).1 := by
  cases op with
  | add cfg F nm wl sf => exact lenOk_add n cfg F nm wl sf s hop hs
  | remove cfg wl sf => exact lenOk_remove n cfg wl sf s hop hs
  | sync cfg F sf => exact lenOk_sync n cfg F sf s hop hs
  | toggle_menu id mt ref rk =>
    rw [show (applyOp s (Op.toggle_menu id mt ref rk)).1 = (toggle_menu id mt ref rk s).1
      from rfl, toggle_menu_fst]
    exact lenOk_mapped n _ (fun si => togglePair_ids id mt ref si) s hs
  | close_menu id esc =>
    rw [show (applyOp s (Op.close_menu id esc)).1 = (close_menu id esc s).1 from rfl,
      close_menu_fst]
    exact lenOk_mapped n _ (closeMenuPair_ids id) s hs
  | close_menu_if id mt esc =>
    rw [show (applyOp s (Op.close_menu_if id mt esc)).1 = (close_menu_if id mt esc s).1
      from rfl, close_menu_if_fst]
    exact lenOk_mapped n _ (closeIfCondPair_ids id mt) s hs
  | close_all_menu_if mt esc =>
    rw [show (applyOp s (Op.close_all_menu_if mt esc)).1 = (close_all_menu_if mt esc s).1
      from rfl, close_all_menu_if_fst]
    exact lenOk_mapped n _ (closeIfPair_ids mt) s hs
  | close_all_menus esc =>
    rw [show (applyOp s (Op.close_all_menus esc)).1 = (close_all_menus esc s).1 from rfl,
      close_all_menus_fst]
    exact lenOk_mapped n _ closeAllPair_ids s hs

theorem lenOk_new (bar_configs : List BarConfig) (scale_factor : ℚ) :
    lenOk bar_configs.length (Outputs.new bar_configs scale_factor).1 := by
  intro e he
  rw [show (Outputs.new bar_configs scale_factor).1.entries =
    [Entry.mk fallbackName (create_output_layers none bar_configs scale_factor 0).1 none]
    from rfl, List.mem_singleton] at he
  subst he
  right
  show (create_output_layers none bar_configs scale_factor 0).1.length = _
  rw [create_output_layers_length]

/-- Claim C2 (amended): starting from a fresh registry, after any sequence
of attach/detach/sync (and menu) operations in which every configuration
list passed has the same length as at creation, every non-empty entry (in
particular every matched one) holds exactly that many live pairs. -/
theorem C2_pair_count_matches_configs (bar_configs : List BarConfig)
    (scale_factor : ℚ) (ops : List Op)
    (hops : ∀ op ∈ ops, opLenOk bar_configs.length op) :
    ∀ e ∈ (run (Outputs.new bar_configs scale_factor).1 ops).entries,
      e.infos ≠ [] → e.infos.length = bar_configs.length := by
  have h : lenOk bar_configs.length (run (Outputs.new bar_configs scale_factor).1 ops) :=
    @run_preserves_of (lenOk bar_configs.length) (opLenOk bar_configs.length)
      (fun s op hq hs => lenOk_applyOp bar_configs.length s op hq hs) ops _
      hops (lenOk_new bar_configs scale_factor)
  intro e he hne
  rcases h e he with h0 | hn
  · exact absurd (List.length_eq_zero.mp h0) hne
  · exact hn

/-- Witness for C2_pair_count_matches_configs: the fresh registry's
fallback entry holds exactly one pair for one configured bar. -/
theorem C2_pair_count_matches_configs_witness :
    (Entry.mk fallbackName (create_output_layers none [cfgA] 1 0).1 none).infos.length =
      [cfgA].length :=
  C2_pair_count_matches_configs [cfgA] 1 [] (by simp)
    (Entry.mk fallbackName (create_output_layers none [cfgA] 1 0).1 none)
    (by decide) (by decide)

theorem ne_none_of_isNone_false {o : Option Nat} (h : o.isNone = false) : o ≠ none := by
  intro hc
  rw [hc] at h
  simp at h

theorem isNone_false_of_ne_none {o : Option Nat} (h : o ≠ none) : o.isNone = false := by
  cases o with
  | none => exact absurd rfl h
  | some v => rfl

theorem struct_mem {l₁ l₂ : List Entry}
    (h : l₁.map (fun e => (e.name, e.output, e.infos.length)) =
      l₂.map (fun e => (e.name, e.output, e.infos.length))) :
    ∀ e ∈ l₁, ∃ e2, e2 ∈ l₂ ∧ e2.name = e.name ∧ e2.output = e.output ∧
      e2.infos.length = e.infos.length := by
  intro e he
  have hmem : (e.name, e.output, e.infos.length) ∈
      l₂.map (fun e => (e.name, e.output, e.infos.length)) := by
    rw [← h]
    exact List.mem_map_of_mem _ he
  rw [List.mem_map] at hmem
  obtain ⟨e2, he2, heq⟩ := hmem
  exact ⟨e2, he2, congrArg Prod.fst heq, congrArg (fun p => p.2.1) heq,
    congrArg (fun p => p.2.2) heq⟩

theorem struct_countP_none {l₁ l₂ : List Entry}
    (h : l₁.map (fun e => (e.name, e.output, e.infos.length)) =
      l₂.map (fun e => (e.name, e.output, e.infos.length))) :
    l₁.countP (fun e => e.output.isNone) = l₂.countP (fun e => e.output.isNone) := by
  have h1 : l₁.countP (fun e => e.output.isNone) =
      (l₁.map (fun e => (e.name, e.output, e.infos.length))).countP
        (fun tr => tr.2.1.isNone) := by
    rw [List.countP_map]
    rfl
  have h2 : l₂.countP (fun e => e.output.isNone) =
      (l₂.map (fun e => (e.name, e.output, e.infos.length))).countP
        (fun tr => tr.2.1.isNone) := by
    rw [List.countP_map]
    rfl
  rw [h1, h2, h]

/-- Inv5 only depends on each entry's name, output, and pair count, so it
transfers along registries with equal structural projections. -/
theorem inv5_of_struct_eq {F : ConfigOutputs} {n : Nat} {s₁ s₂ : Outputs}
    (h : s₁.entries.map (fun e => (e.name, e.output, e.infos.length)) =
      s₂.entries.map (fun e => (e.name, e.output, e.infos.length)))
    (hs : Inv5 F n s₂) : Inv5 F n s₁ := by
  obtain ⟨hA, hB, hC, hD, hE⟩ := hs
  have hfwd := struct_mem h
  have hbwd := struct_mem h.symm
  refine ⟨?_, ?_, ?_, ?_, ?_⟩
  · intro e he hnone
    obtain ⟨e2, he2, hnm, hout, hlen⟩ := hfwd e he
    rw [hnone] at hout
    obtain ⟨hn1, hn2⟩ := hA e2 he2 hout
    exact ⟨by rw [← hnm, hn1], by rw [← hlen, hn2]⟩
  · rw [struct_countP_none h]
    exact hB
  · intro hex e he hne
    obtain ⟨e0, he0, he0n⟩ := hex
    obtain ⟨e02, he02, -, hout0, -⟩ := hfwd e0 he0
    rw [he0n] at hout0
    obtain ⟨e2, he2, hnm, hout, hlen⟩ := hfwd e he
    have hne2 : e2.output ≠ none := by rw [hout]; exact hne
    have hempty2 := hC ⟨e02, he02, hout0⟩ e2 he2 hne2
    apply List.length_eq_zero.mp
    rw [← hlen, hempty2]
    rfl
  · intro hall
    have hall2 : ∀ e2 ∈ s₂.entries, e2.output ≠ none := by
      intro e2 he2
      obtain ⟨e1, he1, -, hout, -⟩ := hbwd e2 he2
      rw [← hout]
      exact hall e1 he1
    obtain ⟨e2, he2, hne2, hinf2, hm2⟩ := hD hall2
    obtain ⟨e1, he1, hnm, hout, hlen⟩ := hbwd e2 he2
    refine ⟨e1, he1, ?_, ?_, ?_⟩
    · rw [hout]
      exact hne2
    · intro hc
      apply hinf2
      apply List.length_eq_zero.mp
      rw [← hlen, hc]
      rfl
    · rw [hnm]
      exact hm2
  · intro e he hinf hne
    obtain ⟨e2, he2, hnm, hout, hlen⟩ := hfwd e he
    have hinf2 : e2.infos ≠ [] := by
      intro hc
      apply hinf
      apply List.length_eq_zero.mp
      rw [← hlen, hc]
      rfl
    have hne2 : e2.output ≠ none := by
      rw [hout]
      exact hne
    have h2 := hE e2 he2 hinf2 hne2
    rw [← hnm]
    exact h2

theorem inv5_new (F : ConfigOutputs) (bar_configs : List BarConfig) (scale_factor : ℚ) :
    Inv5 F bar_configs.length (Outputs.new bar_configs scale_factor).1 := by
  have hent : (Outputs.new bar_configs scale_factor).1.entries =
      [Entry.mk fallbackName (create_output_layers none bar_configs scale_factor 0).1
        none] := rfl
  refine ⟨?_, ?_, ?_, ?_, ?_⟩
  · intro e he hnone
    rw [hent, List.mem_singleton] at he
    subst he
    refine ⟨rfl, ?_⟩
    show (create_output_layers none bar_configs scale_factor 0).1.length = _
    rw [create_output_layers_length]
  · rw [hent]
    simp [List.countP_cons]
  · intro hex e he hne
    rw [hent, List.mem_singleton] at he
    subst he
    exact absurd rfl hne
  · intro hall
    exfalso
    refine hall (Entry.mk fallbackName
      (create_output_layers none bar_configs scale_factor 0).1 none) ?_ rfl
    rw [hent]
    exact List.mem_singleton.mpr rfl
  · intro e he hinf hne
    rw [hent, List.mem_singleton] at he
    subst he
    exact absurd rfl hne

/-- A matched add leaves no handle-free entry in the registry: the new entry
owns the handle and at most one handle-free entry existed, which the add
drops whenever any survives its same-name removal. -/
theorem add_matched_no_none (cfg : List BarConfig) (F : ConfigOutputs) (nm : List Char)
    (wl : Nat) (sf : ℚ) (s : Outputs)
    (hB : s.entries.countP (fun e => e.output.isNone) ≤ 1)
    (hm : name_in_config nm F = true) :
    ∀ e ∈ (add cfg F nm wl sf s).1.entries, e.output ≠ none := by
  rcases add_entries_shape cfg F nm wl sf s with ⟨hf, -, -, -⟩ |
    ⟨-, -, dropped, -, hperm, -, hnone, -⟩
  · rw [hm] at hf
    simp at hf
  · intro e he
    rcases hnone with hleft | ⟨d, hd, hdn⟩
    · exact ne_none_of_isNone_false (hleft e he)
    · have hcnt := hperm.countP_eq (fun e => e.output.isNone)
      rw [List.countP_append, List.countP_append] at hcnt
      have hnew0 : ([Entry.mk nm (create_output_layers (some wl) cfg sf s.next).1
          (some wl)]).countP (fun e => e.output.isNone) = 0 := by
        simp [List.countP_cons]
      have hdpos : 0 < dropped.countP (fun e => e.output.isNone) :=
        List.countP_pos_iff.mpr ⟨d, hd, hdn⟩
      intro hc
      have hepos : 0 < (add cfg F nm wl sf s).1.entries.countP
          (fun e => e.output.isNone) :=
        List.countP_pos_iff.mpr ⟨e, he, by simp [hc]⟩
      omega

theorem inv5_add (F : ConfigOutputs) (n : Nat) (cfg : List BarConfig) (nm : List Char)
    (wl : Nat) (sf : ℚ) (s : Outputs) (hlen : cfg.length = n) (hn : 1 ≤ n)
    (hs : Inv5 F n s) : Inv5 F n (add cfg F nm wl sf s).1 := by
  obtain ⟨hA, hB, hC, hD, hE⟩ := hs
  by_cases hm : name_in_config nm F = true
  · have hnonone := add_matched_no_none cfg F nm wl sf s hB hm
    rcases add_entries_shape cfg F nm wl sf s with ⟨hf, -, -, -⟩ |
      ⟨-, -, dropped, -, hperm, -, -, hnewmem⟩
    · rw [hm] at hf
      simp at hf
    · have hmemOf : ∀ e ∈ (add cfg F nm wl sf s).1.entries,
          e ∈ s.entries ∨
            e = Entry.mk nm (create_output_layers (some wl) cfg sf s.next).1 (some wl) := by
        intro e he
        have hmem := hperm.symm.subset (List.mem_append_right dropped he)
        rcases List.mem_append.mp hmem with h | h
        · exact Or.inl h
        · exact Or.inr (List.mem_singleton.mp h)
      refine ⟨?_, ?_, ?_, ?_, ?_⟩
      · intro e he hnone
        exact absurd hnone (hnonone e he)
      · have hcnt := hperm.countP_eq (fun e => e.output.isNone)
        rw [List.countP_append, List.countP_append] at hcnt
        have hnew0 : ([Entry.mk nm (create_output_layers (some wl) cfg sf s.next).1
            (some wl)]).countP (fun e => e.output.isNone) = 0 := by
          simp [List.countP_cons]
        omega
      · intro hex
        exfalso
        obtain ⟨e0, he0, he0n⟩ := hex
        exact hnonone e0 he0 he0n
      · intro _
        refine ⟨Entry.mk nm (create_output_layers (some wl) cfg sf s.next).1 (some wl),
          hnewmem, ?_, ?_, hm⟩
        · intro hc
          exact Option.noConfusion hc
        · intro hc
          have hc2 : (create_output_layers (some wl) cfg sf s.next).1 = [] := hc
          have hlc := congrArg List.length hc2
          rw [create_output_layers_length] at hlc
          simp only [List.length_nil] at hlc
          omega
      · intro e he hinf hne
        rcases hmemOf e he with h | h
        · exact hE e h hinf hne
        · subst h
          exact hm
  · have hf : name_in_config nm F = false := by
      cases hc : name_in_config nm F
      · rfl
      · exact absurd hc hm
    rcases add_entries_shape cfg F nm wl sf s with ⟨-, hent, -, -⟩ | ⟨ht, -⟩
    · refine ⟨?_, ?_, ?_, ?_, ?_⟩
      · intro e he hnone
        rw [hent] at he
        rcases List.mem_append.mp he with h | h
        · exact hA e h hnone
        · rw [List.mem_singleton] at h
          subst h
          exact Option.noConfusion hnone
      · rw [hent, List.countP_append]
        have h0 : ([Entry.mk nm [] (some wl)]).countP (fun e => e.output.isNone) = 0 := by
          simp [List.countP_cons]
        omega
      · intro hex e he hne
        obtain ⟨e0, he0, he0n⟩ := hex
        rw [hent] at he0
        have he0s : e0 ∈ s.entries := by
          rcases List.mem_append.mp he0 with h | h
          · exact h
          · exfalso
            rw [List.mem_singleton] at h
            subst h
            exact Option.noConfusion he0n
        rw [hent] at he
        rcases List.mem_append.mp he with h | h
        · exact hC ⟨e0, he0s, he0n⟩ e h hne
        · rw [List.mem_singleton] at h
          subst h
          rfl
      · intro hall
        have halls : ∀ e ∈ s.entries, e.output ≠ none := by
          intro e he2
          refine hall e ?_
          rw [hent]
          exact List.mem_append_left _ he2
        obtain ⟨e0, he0, hne0, hinf0, hm0⟩ := hD halls
        refine ⟨e0, ?_, hne0, hinf0, hm0⟩
        rw [hent]
        exact List.mem_append_left _ he0
      · intro e he hinf hne
        rw [hent] at he
        rcases List.mem_append.mp he with h | h
        · exact hE e h hinf hne
        · rw [List.mem_singleton] at h
          subst h
          exact absurd rfl hinf
    · rw [hf] at ht
      simp at ht

theorem inv5_remove (F : ConfigOutputs) (n : Nat) (cfg : List BarConfig) (wl : Nat)
    (sf : ℚ) (s : Outputs) (hlen : cfg.length = n) (hn : 1 ≤ n)
    (hs : Inv5 F n s) : Inv5 F n (remove cfg wl sf s).1 := by
  obtain ⟨hA, hB, hC, hD, hE⟩ := hs
  rcases remove_entries_shape cfg wl sf s with ⟨hid, -⟩ | ⟨old, rest, hperm, holdout, hcase⟩
  · rw [hid]
    exact ⟨hA, hB, hC, hD, hE⟩
  · have hrestmem : ∀ e ∈ rest, e ∈ s.entries := fun e he =>
      hperm.symm.subset (List.mem_cons_of_mem _ he)
    have hold0 : old.output.isNone = false := by
      rw [holdout]
      rfl
    have hcnt := hperm.countP_eq (fun e => e.output.isNone)
    rw [List.countP_cons] at hcnt
    simp only [hold0, Bool.false_eq_true, if_false] at hcnt
    have hemp0 : ([Entry.mk old.name [] old.output]).countP
        (fun e => e.output.isNone) = 0 := by
      simp [List.countP_cons, hold0]
    rcases hcase with ⟨-, hent, -, hany⟩ | ⟨-, hent, -, hany⟩
    · have hentmem : ∀ e ∈ (remove cfg wl sf s).1.entries,
          e ∈ rest ∨ e = Entry.mk old.name [] old.output := by
        intro e he
        rw [hent] at he
        rcases List.mem_append.mp he with h | h
        · exact Or.inl h
        · exact Or.inr (List.mem_singleton.mp h)
      refine ⟨?_, ?_, ?_, ?_, ?_⟩
      · intro e he hnone
        rcases hentmem e he with h | h
        · exact hA e (hrestmem e h) hnone
        · exfalso
          subst h
          have h2 : old.output = none := hnone
          rw [holdout] at h2
          exact Option.noConfusion h2
      · rw [hent, List.countP_append]
        omega
      · intro hex e he hne
        obtain ⟨e0, he0, he0n⟩ := hex
        have he0r : e0 ∈ rest := by
          rcases hentmem e0 he0 with h | h
          · exact h
          · exfalso
            subst h
            have h2 : old.output = none := he0n
            rw [holdout] at h2
            exact Option.noConfusion h2
        have hCs := hC ⟨e0, hrestmem e0 he0r, he0n⟩
        rcases hentmem e he with h | h
        · exact hCs e (hrestmem e h) hne
        · subst h
          rfl
      · intro hall
        rw [List.any_eq_true] at hany
        obtain ⟨e1, he1, he1p⟩ := hany
        have he1ne : e1.infos ≠ [] := by
          simpa using he1p
        have he1mem : e1 ∈ (remove cfg wl sf s).1.entries := by
          rw [hent]
          exact he1
        have he1rest : e1 ∈ rest := by
          rcases List.mem_append.mp he1 with h | h
          · exact h
          · exfalso
            rw [List.mem_singleton] at h
            subst h
            exact he1ne rfl
        have he1out : e1.output ≠ none := hall e1 he1mem
        exact ⟨e1, he1mem, he1out, he1ne, hE e1 (hrestmem e1 he1rest) he1ne he1out⟩
      · intro e he hinf hne
        rcases hentmem e he with h | h
        · exact hE e (hrestmem e h) hinf hne
        · subst h
          exact absurd rfl hinf
    · have hallempty : ∀ e ∈ rest ++ [Entry.mk old.name [] old.output],
          e.infos.isEmpty = true := by
        rw [List.any_eq_false] at hany
        intro e he
        have := hany e he
        simpa using this
      have hrestempty : ∀ e ∈ rest, e.infos = [] := by
        intro e he
        have := hallempty e (List.mem_append_left _ he)
        simpa using this
      have hentmem : ∀ e ∈ (remove cfg wl sf s).1.entries,
          (e ∈ rest ∨ e = Entry.mk old.name [] old.output) ∨
            e = Entry.mk fallbackName (create_output_layers none cfg sf s.next).1 none := by
        intro e he
        rw [hent] at he
        rcases List.mem_append.mp he with h | h
        · rcases List.mem_append.mp h with h2 | h2
          · exact Or.inl (Or.inl h2)
          · exact Or.inl (Or.inr (List.mem_singleton.mp h2))
        · exact Or.inr (List.mem_singleton.mp h)
      have hrest0 : rest.countP (fun e => e.output.isNone) = 0 := by
        rw [List.countP_eq_zero]
        intro e he hp
        have hnone : e.output = none := by
          cases hout : e.output
          · rfl
          · rw [hout] at hp
            simp at hp
        obtain ⟨-, hlen2⟩ := hA e (hrestmem e he) hnone
        rw [hrestempty e he] at hlen2
        simp only [List.length_nil] at hlen2
        omega
      refine ⟨?_, ?_, ?_, ?_, ?_⟩
      · intro e he hnone
        rcases hentmem e he with (h | h) | h
        · exact hA e (hrestmem e h) hnone
        · exfalso
          subst h
          have h2 : old.output = none := hnone
          rw [holdout] at h2
          exact Option.noConfusion h2
        · subst h
          refine ⟨rfl, ?_⟩
          show (create_output_layers none cfg sf s.next).1.length = n
          rw [create_output_layers_length, hlen]
      · rw [hent, List.countP_append, List.countP_append]
        have hf1 : ([Entry.mk fallbackName (create_output_layers none cfg sf s.next).1
            none]).countP (fun e => e.output.isNone) = 1 := by
          simp [List.countP_cons]
        omega
      · intro _ e he hne
        rcases hentmem e he with (h | h) | h
        · exact hrestempty e h
        · subst h
          rfl
        · exfalso
          subst h
          exact hne rfl
      · intro hall
        exfalso
        refine hall (Entry.mk fallbackName
          (create_output_layers none cfg sf s.next).1 none) ?_ rfl
        rw [hent]
        exact List.mem_append_right _ (List.mem_singleton.mpr rfl)
      · intro e he hinf hne
        rcases hentmem e he with (h | h) | h
        · exact absurd (hrestempty e h) hinf
        · subst h
          exact absurd rfl hinf
        · subst h
          exact absurd rfl hne

theorem inv5_inPlace (F : ConfigOutputs) (n : Nat) (cfg : List BarConfig) (sf : ℚ)
    (s : Outputs) (hs : Inv5 F n s) : Inv5 F n (inPlace cfg sf s).1 := by
  obtain ⟨-, -, i3⟩ := inPlace_facts cfg sf s.entries
  exact inv5_of_struct_eq i3 hs

theorem inv5_sync (F : ConfigOutputs) (n : Nat) (cfg : List BarConfig) (sf : ℚ)
    (s : Outputs) (hlen : cfg.length = n) (hn : 1 ≤ n) (hs : Inv5 F n s) :
    Inv5 F n (sync cfg F sf s).1 := by
  exact inv5_inPlace F n cfg sf _
    (removeAll_preserves (fun h s hs => inv5_remove F n cfg h sf s hlen hn hs) _ _
      (addAll_preserves (fun nm h s hs => inv5_add F n cfg nm h sf s hlen hn hs) _ _ hs))

theorem inv5_mapped (F : ConfigOutputs) (n : Nat) (f : ShellInfo → ShellInfo)
    (hf : ∀ si, (f si).id = si.id ∧ (f si).menu.id = si.menu.id) (s : Outputs)
    (hs : Inv5 F n s) :
    Inv5 F n (Outputs.mk (s.entries.map (fun e => { e with infos := e.infos.map f }))
      s.next) := by
  obtain ⟨-, -, -, hstruct⟩ := mapped_state_facts f hf s
  exact inv5_of_struct_eq hstruct hs

theorem inv5_applyOp (F : ConfigOutputs) (n : Nat) (s : Outputs) (op : Op)
    (hn : 1 ≤ n) (hop : opOk5 F n op) (hs : Inv5 F n s) : Inv5 F n (applyOp s op).1 := by
  cases op with
  | add cfg F2 nm wl sf =>
    obtain ⟨h1, h2⟩ := hop
    rw [h2]
    exact inv5_add F n cfg nm wl sf s h1 hn hs
  | remove cfg wl sf => exact inv5_remove F n cfg wl sf s hop hn hs
  | sync cfg F2 sf =>
    obtain ⟨h1, h2⟩ := hop
    rw [h2]
    exact inv5_sync F n cfg sf s h1 hn hs
  | toggle_menu id mt ref rk =>
    rw [show (applyOp s (Op.toggle_menu id mt ref rk)).1 = (toggle_menu id mt ref rk s).1
      from rfl, toggle_menu_fst]
    exact inv5_mapped F n _ (fun si => togglePair_ids id mt ref si) s hs
  | close_menu id esc =>
    rw [show (applyOp s (Op.close_menu id esc)).1 = (close_menu id esc s).1 from rfl,
      close_menu_fst]
    exact inv5_mapped F n _ (closeMenuPair_ids id) s hs
  | close_menu_if id mt esc =>
    rw [show (applyOp s (Op.close_menu_if id mt esc)).1 = (close_menu_if id mt esc s).1
      from rfl, close_menu_if_fst]
    exact inv5_mapped F n _ (closeIfCondPair_ids id mt) s hs
  | close_all_menu_if mt esc =>
    rw [show (applyOp s (Op.close_all_menu_if mt esc)).1 = (close_all_menu_if mt esc s).1
      from rfl, close_all_menu_if_fst]
    exact inv5_mapped F n _ (closeIfPair_ids mt) s hs
  | close_all_menus esc =>
    rw [show (applyOp s (Op.close_all_menus esc)).1 = (close_all_menus esc s).1 from rfl,
      close_all_menus_fst]
    exact inv5_mapped F n _ closeAllPair_ids s hs

/-- Claim C5 (amended): starting from a fresh registry and running any
sequence of operations whose configuration lists all have the creation
length and whose add/sync calls use the creation filter, whenever every
handle-owning entry is empty (zero matched displays are attached), exactly
one handle-free entry exists, it is the fallback with exactly
len(bar_configs) pairs, and the first matching add removes every handle-free
entry, emits the destroy requests for all of the fallback's surfaces, and
creates a real entry for the attached display with len(bar_configs) pairs. -/
theorem C5_fallback_law (bar_configs : List BarConfig) (scale_factor : ℚ)
    (F : ConfigOutputs) (ops : List Op)
    (hn : 1 ≤ bar_configs.length)
    (hops : ∀ op ∈ ops, opOk5 F bar_configs.length op)
    (hzero : ∀ e ∈ (run (Outputs.new bar_configs scale_factor).1 ops).entries,
      e.output ≠ none → e.infos = []) :
    ((run (Outputs.new bar_configs scale_factor).1 ops).entries.countP
        (fun e => e.output.isNone) = 1 ∧
      ∀ e ∈ (run (Outputs.new bar_configs scale_factor).1 ops).entries,
        e.output = none →
          e.name = fallbackName ∧ e.infos.length = bar_configs.length) ∧
    ∀ (cfg : List BarConfig) (nm : List Char) (wl : Nat) (sf : ℚ),
      cfg.length = bar_configs.length → name_in_config nm F = true →
      (∀ e ∈ (add cfg F nm wl sf
          (run (Outputs.new bar_configs scale_factor).1 ops)).1.entries,
        e.output ≠ none) ∧
      Entry.mk nm (create_output_layers (some wl) cfg sf
          (run (Outputs.new bar_configs scale_factor).1 ops).next).1 (some wl) ∈
        (add cfg F nm wl sf (run (Outputs.new bar_configs scale_factor).1 ops)).1.entries ∧
      (create_output_layers (some wl) cfg sf
          (run (Outputs.new bar_configs scale_factor).1 ops).next).1.length =
        bar_configs.length ∧
      ∀ e ∈ (run (Outputs.new bar_configs scale_factor).1 ops).entries,
        e.output = none → ∀ r ∈ destroyEntry e,
          r ∈ (add cfg F nm wl sf (run (Outputs.new bar_configs scale_factor).1 ops)).2 := by
  have hinv : Inv5 F bar_configs.length (run (Outputs.new bar_configs scale_factor).1 ops) :=
    @run_preserves_of (Inv5 F bar_configs.length) (opOk5 F bar_configs.length)
      (fun s op hq hs => inv5_applyOp F bar_configs.length s op hn hq hs) ops _
      hops (inv5_new F bar_configs scale_factor)
  obtain ⟨hA, hB, hC, hD, hE⟩ := hinv
  have hex : ∃ e ∈ (run (Outputs.new bar_configs scale_factor).1 ops).entries,
      e.output = none := by
    by_contra hno
    push_neg at hno
    obtain ⟨e0, he0, hne0, hinf0, -⟩ := hD hno
    exact hinf0 (hzero e0 he0 hne0)
  refine ⟨⟨?_, fun e he hnone => hA e he hnone⟩, ?_⟩
  · obtain ⟨e1, he1, he1n⟩ := hex
    have hpos : 0 < (run (Outputs.new bar_configs scale_factor).1 ops).entries.countP
        (fun e => e.output.isNone) :=
      List.countP_pos_iff.mpr ⟨e1, he1, by simp [he1n]⟩
    omega
  · intro cfg nm wl sf hlen hm
    have hnonone := add_matched_no_none cfg F nm wl sf
      (run (Outputs.new bar_configs scale_factor).1 ops) hB hm
    rcases add_entries_shape cfg F nm wl sf
        (run (Outputs.new bar_configs scale_factor).1 ops) with
      ⟨hf, -, -, -⟩ | ⟨-, -, dropped, -, hperm, hreq, -, hnewmem⟩
    · rw [hm] at hf
      simp at hf
    · refine ⟨hnonone, hnewmem, ?_, ?_⟩
      · rw [create_output_layers_length, hlen]
      · intro e he hnone r hr
        have hmem2 : e ∈ dropped ++ (add cfg F nm wl sf
            (run (Outputs.new bar_configs scale_factor).1 ops)).1.entries :=
          hperm.subset (List.mem_append_left _ he)
        have hedrop : e ∈ dropped := by
          rcases List.mem_append.mp hmem2 with h | h
          · exact h
          · exact absurd hnone (hnonone e h)
        rw [hreq]
        exact List.mem_append_left _ (List.mem_flatMap.mpr ⟨e, hedrop, hr⟩)

/-- Witness for C5_fallback_law: the fresh one-bar registry with the eDP
filter has exactly one handle-free entry. -/
theorem C5_fallback_law_witness :
    (Outputs.new [cfgA] 1).1.entries.countP (fun e => e.output.isNone) = 1 :=
  (C5_fallback_law [cfgA] 1 filterE [] (by decide) (by simp) (by decide)).1.1

theorem name_unique {l : List Entry} (h : (l.map Entry.name).Nodup) :
    ∀ e0 ∈ l, ∀ e1 ∈ l, e0.name = e1.name → e0 = e1 := by
  induction l with
  | nil =>
    intro e0 he0
    simp at he0
  | cons x xs ih =>
    intro e0 he0 e1 he1 hnm
    simp only [List.map_cons, List.nodup_cons] at h
    obtain ⟨hx, hxs⟩ := h
    rcases List.mem_cons.mp he0 with h0 | h0 <;> rcases List.mem_cons.mp he1 with h1 | h1
    · rw [h0, h1]
    · exfalso
      subst h0
      have hmem : e1.name ∈ xs.map Entry.name := List.mem_map_of_mem _ h1
      rw [← hnm] at hmem
      exact hx hmem
    · exfalso
      subst h1
      have hmem : e0.name ∈ xs.map Entry.name := List.mem_map_of_mem _ h0
      rw [hnm] at hmem
      exact hx hmem
    · exact ih hxs e0 h0 e1 h1 hnm

theorem handle_unique {l : List Entry} (h : (l.filterMap Entry.output).Nodup) :
    ∀ e0 ∈ l, ∀ e1 ∈ l, ∀ hd, e0.output = some hd → e1.output = some hd → e0 = e1 := by
  induction l with
  | nil =>
    intro e0 he0
    simp at he0
  | cons x xs ih =>
    intro e0 he0 e1 he1 hd h0d h1d
    have hsub : (xs.filterMap Entry.output).Nodup :=
      List.Nodup.sublist (List.Sublist.filterMap _ (List.sublist_cons_self x xs)) h
    rcases List.mem_cons.mp he0 with h0 | h0 <;> rcases List.mem_cons.mp he1 with h1 | h1
    · rw [h0, h1]
    · exfalso
      rw [h0] at h0d
      have hfm : (x :: xs).filterMap Entry.output = hd :: xs.filterMap Entry.output := by
        simp only [List.filterMap_cons, h0d]
      rw [hfm] at h
      exact (List.nodup_cons.mp h).1 (List.mem_filterMap.mpr ⟨e1, h1, h1d⟩)
    · exfalso
      rw [h1] at h1d
      have hfm : (x :: xs).filterMap Entry.output = hd :: xs.filterMap Entry.output := by
        simp only [List.filterMap_cons, h1d]
      rw [hfm] at h
      exact (List.nodup_cons.mp h).1 (List.mem_filterMap.mpr ⟨e0, h0, h0d⟩)
    · exact ih hsub e0 h0 e1 h1 hd h0d h1d

theorem filterMap_guard_fst_sublist (l : List Entry) (g : Entry → Bool) :
    ((l.filterMap (fun e => if g e then some (e.name, e.output) else none)).map
      Prod.fst) <+ l.map Entry.name := by
  induction l with
  | nil => simp
  | cons x xs ih =>
    by_cases hx : g x = true
    · have h1 : ((x :: xs).filterMap
          (fun e => if g e then some (e.name, e.output) else none)) =
          (x.name, x.output) ::
            xs.filterMap (fun e => if g e then some (e.name, e.output) else none) := by
        simp only [List.filterMap_cons, hx, if_true]
      rw [h1, List.map_cons, List.map_cons]
      exact ih.cons₂ _
    · have hx2 : g x = false := by
        cases h2 : g x
        · rfl
        · exact absurd h2 hx
      have h1 : ((x :: xs).filterMap
          (fun e => if g e then some (e.name, e.output) else none)) =
          xs.filterMap (fun e => if g e then some (e.name, e.output) else none) := by
        simp only [List.filterMap_cons, hx2, Bool.false_eq_true, if_false]
      rw [h1, List.map_cons]
      exact ih.cons _

theorem sync_decompose (cfg : List BarConfig) (F : ConfigOutputs) (sf : ℚ)
    (s : Outputs) :
    sync cfg F sf s =
      ((inPlace cfg sf (removeAll cfg sf (toRemoveList F s)
          (addAll cfg F sf (toAddList F s) s).1).1).1,
        (addAll cfg F sf (toAddList F s) s).2 ++
          (removeAll cfg sf (toRemoveList F s)
            (addAll cfg F sf (toAddList F s) s).1).2 ++
          (inPlace cfg sf (removeAll cfg sf (toRemoveList F s)
            (addAll cfg F sf (toAddList F s) s).1).1).2) := rfl

theorem addAll_skip (cfg : List BarConfig) (F : ConfigOutputs) (sf : ℚ) :
    ∀ (A : List (List Char × Option Nat)) (t : Outputs), (∀ p ∈ A, p.2 = none) →
      addAll cfg F sf A t = (t, []) := by
  intro A
  induction A with
  | nil =>
    intro t _
    rfl
  | cons p rest ih =>
    intro t hp
    rcases p with ⟨nm, o⟩
    cases o with
    | some h =>
      exfalso
      have := hp (nm, some h) (List.mem_cons_self _ _)
      simp at this
    | none =>
      rw [show addAll cfg F sf ((nm, none) :: rest) t = addAll cfg F sf rest t from rfl]
      exact ih t (fun q hq => hp q (List.mem_cons_of_mem _ hq))

theorem syncInfos_id (cfg : List BarConfig) (sf : ℚ) :
    ∀ (l : List ShellInfo) (i : Nat),
      (∀ (j : Nat) (si : ShellInfo), l[j]? = some si → ∀ c, cfg[i + j]? = some c →
        si.config = c ∧ si.scale_factor = sf) →
      syncInfos cfg sf i l = (l, []) := by
  intro l
  induction l with
  | nil =>
    intro i _
    rfl
  | cons s0 rest ih =>
    intro i hsync
    have h1 : syncInfo cfg sf i s0 = (s0, []) := by
      cases hc : cfg[i]? with
      | none => simp only [syncInfo, hc]
      | some c =>
        have hcc := hsync 0 s0 List.getElem?_cons_zero c (by rw [Nat.add_zero]; exact hc)
        simp only [syncInfo, hc]
        rw [if_neg (by push_neg; exact ⟨hcc.1, hcc.2⟩)]
    have h2 : syncInfos cfg sf (i + 1) rest = (rest, []) := by
      apply ih
      intro j si2 hj c hc
      refine hsync (j + 1) si2 (by simpa using hj) c ?_
      rw [show i + (j + 1) = i + 1 + j from by omega]
      exact hc
    rw [show syncInfos cfg sf i (s0 :: rest) =
      ((syncInfo cfg sf i s0).1 :: (syncInfos cfg sf (i + 1) rest).1,
        (syncInfo cfg sf i s0).2 ++ (syncInfos cfg sf (i + 1) rest).2) from rfl]
    rw [h1, h2]
    rfl

theorem syncEntry_id (cfg : List BarConfig) (sf : ℚ) (e : Entry)
    (hs : cfgSynced cfg sf e) : syncEntry cfg sf e = (e, []) := by
  have h := syncInfos_id cfg sf e.infos 0 (by
    intro j si hj c hc
    rw [Nat.zero_add] at hc
    exact hs j si hj c hc)
  rw [show syncEntry cfg sf e =
    ({ e with infos := (syncInfos cfg sf 0 e.infos).1 },
      (syncInfos cfg sf 0 e.infos).2) from rfl]
  rw [h]

theorem inPlace_id (cfg : List BarConfig) (sf : ℚ) (t : Outputs)
    (hs : ∀ e ∈ t.entries, cfgSynced cfg sf e) : inPlace cfg sf t = (t, []) := by
  have hmap : t.entries.map (syncEntry cfg sf) =
      t.entries.map (fun e => (e, ([] : List Request))) :=
    List.map_congr_left (fun e he => syncEntry_id cfg sf e (hs e he))
  have hflat : ∀ l : List Entry,
      (l.map (fun e => ((e : Entry), ([] : List Request)))).flatMap Prod.snd = [] := by
    intro l
    induction l with
    | nil => rfl
    | cons x xs ih =>
      simp only [List.map_cons, List.flatMap_cons, ih]
      rfl
  have hfst : ∀ l : List Entry,
      ((l.map (fun e => ((e : Entry), ([] : List Request)))).map Prod.fst) = l := by
    intro l
    induction l with
    | nil => rfl
    | cons x xs ih =>
      simp only [List.map_cons, ih]
  rw [show inPlace cfg sf t =
    ({ entries := (t.entries.map (syncEntry cfg sf)).map Prod.fst, next := t.next },
      (t.entries.map (syncEntry cfg sf)).flatMap Prod.snd) from rfl]
  rw [hmap, hflat, hfst]

theorem syncInfos_post (cfg : List BarConfig) (sf : ℚ) :
    ∀ (l : List ShellInfo) (i j : Nat) (si : ShellInfo),
      (syncInfos cfg sf i l).1[j]? = some si → ∀ c, cfg[i + j]? = some c →
        si.config = c ∧ si.scale_factor = sf := by
  intro l
  induction l with
  | nil =>
    intro i j si hj
    exfalso
    simp [syncInfos] at hj
  | cons s0 rest ih =>
    intro i j si hj c hc
    rw [show (syncInfos cfg sf i (s0 :: rest)).1 =
      (syncInfo cfg sf i s0).1 :: (syncInfos cfg sf (i + 1) rest).1 from rfl] at hj
    cases j with
    | zero =>
      rw [List.getElem?_cons_zero] at hj
      injection hj with hj
      subst hj
      rw [Nat.add_zero] at hc
      simp only [syncInfo, hc]
      split
      · exact ⟨rfl, rfl⟩
      · next hd =>
        push_neg at hd
        exact ⟨hd.1, hd.2⟩
    | succ j2 =>
      rw [List.getElem?_cons_succ] at hj
      refine ih (i + 1) j2 si hj c ?_
      rw [show i + 1 + j2 = i + (j2 + 1) from by omega]
      exact hc

theorem inPlace_establishes (cfg : List BarConfig) (sf : ℚ) (t : Outputs) :
    ∀ e ∈ (inPlace cfg sf t).1.entries, cfgSynced cfg sf e := by
  intro e he
  have hent : (inPlace cfg sf t).1.entries =
      (t.entries.map (syncEntry cfg sf)).map Prod.fst := rfl
  rw [hent, List.map_map, List.mem_map] at he
  obtain ⟨e0, -, heq⟩ := he
  rw [← heq]
  intro i si hi c hc
  refine syncInfos_post cfg sf e0.infos 0 i si hi c ?_
  rw [Nat.zero_add]
  exact hc

theorem settled_of_struct {F : ConfigOutputs} {l₁ l₂ : List Entry}
    (h : l₁.map (fun e => (e.name, e.output, e.infos.length)) =
      l₂.map (fun e => (e.name, e.output, e.infos.length)))
    (hs : ∀ e ∈ l₂, settled F e) : ∀ e ∈ l₁, settled F e := by
  intro e he hsome
  obtain ⟨e2, he2, hnm, hout, hlen⟩ := struct_mem h e he
  have hsome2 : e2.output.isSome = true := by
    rw [hout]
    exact hsome
  have h2 := hs e2 he2 hsome2
  constructor
  · intro hm hc
    have he2e : e2.infos = [] := by
      apply List.length_eq_zero.mp
      rw [hlen, hc]
      rfl
    exact (h2.mp (by rw [hnm]; exact hm)) he2e
  · intro hne
    have hne2 : e2.infos ≠ [] := by
      intro hc
      apply hne
      apply List.length_eq_zero.mp
      rw [← hlen, hc]
      rfl
    have hm2 := h2.mpr hne2
    rw [hnm] at hm2
    exact hm2

/-- A matched add on a registry with pairwise-distinct names and handles in
which the added name and handle denote the same entry (if any) keeps names
and handles pairwise distinct, and every resulting entry is the freshly
created one or an original entry under a different name. -/
theorem add_clean (cfg : List BarConfig) (F : ConfigOutputs) (nm : List Char) (w : Nat)
    (sf : ℚ) (t : Outputs)
    (hm : name_in_config nm F = true)
    (hN : (t.entries.map Entry.name).Nodup)
    (hH : (t.entries.filterMap Entry.output).Nodup)
    (hname_w : ∀ e ∈ t.entries, e.name = nm → e.output = some w)
    (hw_name : ∀ e ∈ t.entries, e.output = some w → e.name = nm) :
    ((add cfg F nm w sf t).1.entries.map Entry.name).Nodup ∧
    ((add cfg F nm w sf t).1.entries.filterMap Entry.output).Nodup ∧
    ∀ e ∈ (add cfg F nm w sf t).1.entries,
      e = Entry.mk nm (create_output_layers (some w) cfg sf t.next).1 (some w) ∨
        (e ∈ t.entries ∧ e.name ≠ nm) := by
  cases h1 : removeAt? t.entries (fun e => e.name == nm) with
  | some pr1 =>
    rcases pr1 with ⟨old1, rest1⟩
    obtain ⟨hp1, hperm1⟩ := removeAt?_some h1
    have hp1e : old1.name = nm := by simpa using hp1
    have hold1mem : old1 ∈ t.entries := hperm1.symm.subset (List.mem_cons_self _ _)
    have hold1out : old1.output = some w := hname_w old1 hold1mem hp1e
    have hnperm : (t.entries.map Entry.name) ~ old1.name :: rest1.map Entry.name := by
      have h0 := hperm1.map Entry.name
      simpa using h0
    have hnodup1 : (old1.name :: rest1.map Entry.name).Nodup := hnperm.nodup hN
    have hnm_notin : nm ∉ rest1.map Entry.name := by
      have h0 := (List.nodup_cons.mp hnodup1).1
      rw [hp1e] at h0
      exact h0
    have hnodup_rest : (rest1.map Entry.name).Nodup := (List.nodup_cons.mp hnodup1).2
    have hhperm : (t.entries.filterMap Entry.output) ~
        w :: rest1.filterMap Entry.output := by
      have h0 := hperm1.filterMap Entry.output
      rw [show (old1 :: rest1).filterMap Entry.output =
        w :: rest1.filterMap Entry.output from by
          simp only [List.filterMap_cons, hold1out]] at h0
      exact h0
    have hhodup1 : (w :: rest1.filterMap Entry.output).Nodup := hhperm.nodup hH
    have hw_notin : w ∉ rest1.filterMap Entry.output := (List.nodup_cons.mp hhodup1).1
    have hhodup_rest : (rest1.filterMap Entry.output).Nodup :=
      (List.nodup_cons.mp hhodup1).2
    have hrest1sub : ∀ e ∈ rest1, e ∈ t.entries ∧ e.name ≠ nm := by
      intro e he
      refine ⟨hperm1.symm.subset (List.mem_cons_of_mem _ he), ?_⟩
      intro hc
      exact hnm_notin (hc ▸ List.mem_map_of_mem Entry.name he)
    have hn2 : ((rest1 ++ [Entry.mk nm (create_output_layers (some w) cfg sf t.next).1
        (some w)]).map Entry.name).Nodup := by
      rw [List.map_append]
      refine List.Nodup.append hnodup_rest (List.nodup_singleton _) ?_
      intro a ha hb
      rw [show ([Entry.mk nm (create_output_layers (some w) cfg sf t.next).1
        (some w)].map Entry.name) = [nm] from rfl, List.mem_singleton] at hb
      subst hb
      exact hnm_notin ha
    have hh2 : ((rest1 ++ [Entry.mk nm (create_output_layers (some w) cfg sf t.next).1
        (some w)]).filterMap Entry.output).Nodup := by
      rw [List.filterMap_append]
      rw [show ([Entry.mk nm (create_output_layers (some w) cfg sf t.next).1
        (some w)].filterMap Entry.output) = [w] from rfl]
      refine List.Nodup.append hhodup_rest (List.nodup_singleton _) ?_
      intro a ha hb
      rw [List.mem_singleton] at hb
      subst hb
      exact hw_notin ha
    have hsub2 : ∀ e ∈ rest1 ++ [Entry.mk nm
        (create_output_layers (some w) cfg sf t.next).1 (some w)],
        e = Entry.mk nm (create_output_layers (some w) cfg sf t.next).1 (some w) ∨
          (e ∈ t.entries ∧ e.name ≠ nm) := by
      intro e he
      rcases List.mem_append.mp he with h | h
      · exact Or.inr (hrest1sub e h)
      · exact Or.inl (List.mem_singleton.mp h)
    cases h2 : removeAt? (rest1 ++ [Entry.mk nm
        (create_output_layers (some w) cfg sf t.next).1 (some w)])
        (fun e => e.output.isNone) with
    | none =>
      have hadd : (add cfg F nm w sf t).1.entries = rest1 ++ [Entry.mk nm
          (create_output_layers (some w) cfg sf t.next).1 (some w)] := by
        simp [add, hm, h1, h2]
      rw [hadd]
      exact ⟨hn2, hh2, hsub2⟩
    | some pr2 =>
      rcases pr2 with ⟨old2, rest2⟩
      obtain ⟨hp2, hperm2⟩ := removeAt?_some h2
      have hp2e : old2.output = none := by simpa using hp2
      have hadd : (add cfg F nm w sf t).1.entries = rest2 := by
        simp [add, hm, h1, h2]
      rw [hadd]
      refine ⟨?_, ?_, ?_⟩
      · have h0 := (hperm2.map Entry.name).nodup hn2
        simp only [List.map_cons] at h0
        exact (List.nodup_cons.mp h0).2
      · have h0 := hperm2.filterMap Entry.output
        rw [show (old2 :: rest2).filterMap Entry.output =
          rest2.filterMap Entry.output from by
            simp only [List.filterMap_cons, hp2e]] at h0
        exact h0.nodup hh2
      · intro e he
        exact hsub2 e (hperm2.symm.subset (List.mem_cons_of_mem _ he))
  | none =>
    have hnone1 := removeAt?_none h1
    have hnames1 : ∀ e ∈ t.entries, e.name ≠ nm := by
      intro e he hc
      have h0 := hnone1 e he
      rw [hc] at h0
      simp at h0
    have hw_notin : w ∉ t.entries.filterMap Entry.output := by
      intro hmem
      obtain ⟨e, he, heo⟩ := List.mem_filterMap.mp hmem
      exact hnames1 e he (hw_name e he heo)
    have hn2 : ((t.entries ++ [Entry.mk nm (create_output_layers (some w) cfg sf t.next).1
        (some w)]).map Entry.name).Nodup := by
      rw [List.map_append]
      refine List.Nodup.append hN (List.nodup_singleton _) ?_
      intro a ha hb
      rw [show ([Entry.mk nm (create_output_layers (some w) cfg sf t.next).1
        (some w)].map Entry.name) = [nm] from rfl, List.mem_singleton] at hb
      subst hb
      obtain ⟨e, he, heq⟩ := List.mem_map.mp ha
      exact hnames1 e he heq
    have hh2 : ((t.entries ++ [Entry.mk nm (create_output_layers (some w) cfg sf t.next).1
        (some w)]).filterMap Entry.output).Nodup := by
      rw [List.filterMap_append]
      rw [show ([Entry.mk nm (create_output_layers (some w) cfg sf t.next).1
        (some w)].filterMap Entry.output) = [w] from rfl]
      refine List.Nodup.append hH (List.nodup_singleton _) ?_
      intro a ha hb
      rw [List.mem_singleton] at hb
      subst hb
      exact hw_notin ha
    have hsub2 : ∀ e ∈ t.entries ++ [Entry.mk nm
        (create_output_layers (some w) cfg sf t.next).1 (some w)],
        e = Entry.mk nm (create_output_layers (some w) cfg sf t.next).1 (some w) ∨
          (e ∈ t.entries ∧ e.name ≠ nm) := by
      intro e he
      rcases List.mem_append.mp he with h | h
      · exact Or.inr ⟨h, hnames1 e h⟩
      · exact Or.inl (List.mem_singleton.mp h)
    cases h2 : removeAt? (t.entries ++ [Entry.mk nm
        (create_output_layers (some w) cfg sf t.next).1 (some w)])
        (fun e => e.output.isNone) with
    | none =>
      have hadd : (add cfg F nm w sf t).1.entries = t.entries ++ [Entry.mk nm
          (create_output_layers (some w) cfg sf t.next).1 (some w)] := by
        simp [add, hm, h1, h2]
      rw [hadd]
      exact ⟨hn2, hh2, hsub2⟩
    | some pr2 =>
      rcases pr2 with ⟨old2, rest2⟩
      obtain ⟨hp2, hperm2⟩ := removeAt?_some h2
      have hp2e : old2.output = none := by simpa using hp2
      have hadd : (add cfg F nm w sf t).1.entries = rest2 := by
        simp [add, hm, h1, h2]
      rw [hadd]
      refine ⟨?_, ?_, ?_⟩
      · have h0 := (hperm2.map Entry.name).nodup hn2
        simp only [List.map_cons] at h0
        exact (List.nodup_cons.mp h0).2
      · have h0 := hperm2.filterMap Entry.output
        rw [show (old2 :: rest2).filterMap Entry.output =
          rest2.filterMap Entry.output from by
            simp only [List.filterMap_cons, hp2e]] at h0
        exact h0.nodup hh2
      · intro e he
        exact hsub2 e (hperm2.symm.subset (List.mem_cons_of_mem _ he))

theorem psiA_skip (F : ConfigOutputs) (s : Outputs) (nm : List Char)
    (A : List (List Char × Option Nat)) (t : Outputs)
    (hpsi : PsiA F s ((nm, none) :: A) t) : PsiA F s A t := by
  obtain ⟨a1, a2, a3, a4, a5, a6, a7, a8, a9⟩ := hpsi
  refine ⟨a1, a2, a3, ?_, a5, ?_, ?_, ?_, ?_⟩
  · intro e he hsome hmatch hempty
    have h0 := a4 e he hsome hmatch hempty
    rcases List.mem_cons.mp h0 with heq | hmem
    · exfalso
      have h2 : e.output = none := congrArg Prod.snd heq
      rw [h2] at hsome
      simp at hsome
    · exact hmem
  · intro p hp
    exact a6 p (List.mem_cons_of_mem _ hp)
  · have h0 := a7
    simp only [List.map_cons] at h0
    exact (List.nodup_cons.mp h0).2
  · intro p hp h2 hp2 e he hen
    exact a8 p (List.mem_cons_of_mem _ hp) h2 hp2 e he hen
  · intro p hp h2 hp2
    exact a9 p (List.mem_cons_of_mem _ hp) h2 hp2

theorem psiA_step (cfg : List BarConfig) (F : ConfigOutputs) (sf : ℚ) (s : Outputs)
    (nm : List Char) (w : Nat) (A : List (List Char × Option Nat)) (t : Outputs)
    (hcfg : cfg ≠ [])
    (hsH : (s.entries.filterMap Entry.output).Nodup)
    (hpsi : PsiA F s ((nm, some w) :: A) t) :
    PsiA F s A (add cfg F nm w sf t).1 := by
  obtain ⟨a1, a2, a3, a4, a5, a6, a7, a8, a9⟩ := hpsi
  have hm : name_in_config nm F = true := a6 (nm, some w) (List.mem_cons_self _ _)
  have hname_w : ∀ e ∈ t.entries, e.name = nm → e.output = some w := by
    intro e he hn
    exact a8 (nm, some w) (List.mem_cons_self _ _) w rfl e he hn
  have hw_name : ∀ e ∈ t.entries, e.output = some w → e.name = nm := by
    intro e he heo
    obtain ⟨e0, he0, he0n, he0o⟩ := a3 e he w heo
    obtain ⟨e1, he1, he1n, he1o⟩ := a9 (nm, some w) (List.mem_cons_self _ _) w rfl
    have heq := handle_unique hsH e0 he0 e1 he1 w he0o he1o
    rw [← he0n, heq, he1n]
  obtain ⟨c1, c2, c3⟩ := add_clean cfg F nm w sf t hm a1 a2 hname_w hw_name
  have hnewinfos : (Entry.mk nm (create_output_layers (some w) cfg sf t.next).1
      (some w)).infos ≠ [] := by
    intro hc
    have hlc := congrArg List.length hc
    rw [show (Entry.mk nm (create_output_layers (some w) cfg sf t.next).1
      (some w)).infos = (create_output_layers (some w) cfg sf t.next).1 from rfl,
      create_output_layers_length] at hlc
    simp only [List.length_nil] at hlc
    have hpos := List.length_pos.mpr hcfg
    omega
  have hanodup : (A.map Prod.fst).Nodup := by
    have h0 := a7
    simp only [List.map_cons] at h0
    exact (List.nodup_cons.mp h0).2
  have hnm_notinA : nm ∉ A.map Prod.fst := by
    have h0 := a7
    simp only [List.map_cons] at h0
    exact (List.nodup_cons.mp h0).1
  refine ⟨c1, c2, ?_, ?_, ?_, ?_, hanodup, ?_, ?_⟩
  · intro e he h2 heo
    rcases c3 e he with hnew | ⟨hold, -⟩
    · subst hnew
      have hw2 : w = h2 := by
        have h3 : some w = some h2 := heo
        injection h3
      obtain ⟨e1, he1, he1n, he1o⟩ := a9 (nm, some w) (List.mem_cons_self _ _) w rfl
      refine ⟨e1, he1, ?_, ?_⟩
      · rw [he1n]
      · rw [he1o, hw2]
    · exact a3 e hold h2 heo
  · intro e he hsome hmatch hempty
    rcases c3 e he with hnew | ⟨hold, hne⟩
    · exfalso
      subst hnew
      exact hnewinfos hempty
    · have h0 := a4 e hold hsome hmatch hempty
      rcases List.mem_cons.mp h0 with heq | hmem
      · exfalso
        exact hne (congrArg Prod.fst heq)
      · exact hmem
  · intro e he hum
    rcases c3 e he with hnew | ⟨hold, -⟩
    · exfalso
      subst hnew
      rw [show (Entry.mk nm (create_output_layers (some w) cfg sf t.next).1
        (some w)).name = nm from rfl, hm] at hum
      exact Bool.noConfusion hum
    · exact a5 e hold hum
  · intro p hp
    exact a6 p (List.mem_cons_of_mem _ hp)
  · intro p hp h2 hp2 e he hen
    rcases c3 e he with hnew | ⟨hold, hne⟩
    · exfalso
      subst hnew
      have hp1 : p.1 = nm := by
        rw [← hen]
      have hmem : p.1 ∈ A.map Prod.fst := List.mem_map_of_mem Prod.fst hp
      rw [hp1] at hmem
      exact hnm_notinA hmem
    · exact a8 p (List.mem_cons_of_mem _ hp) h2 hp2 e hold hen
  · intro p hp h2 hp2
    exact a9 p (List.mem_cons_of_mem _ hp) h2 hp2

theorem addAll_psiA (cfg : List BarConfig) (F : ConfigOutputs) (sf : ℚ) (s : Outputs)
    (hcfg : cfg ≠ []) (hsH : (s.entries.filterMap Entry.output).Nodup) :
    ∀ (A : List (List Char × Option Nat)) (t : Outputs),
      PsiA F s A t → PsiA F s [] (addAll cfg F sf A t).1 := by
  intro A
  induction A with
  | nil =>
    intro t hpsi
    exact hpsi
  | cons p rest ih =>
    intro t hpsi
    rcases p with ⟨nm, o⟩
    cases o with
    | some w =>
      rw [show (addAll cfg F sf ((nm, some w) :: rest) t).1 =
        (addAll cfg F sf rest (add cfg F nm w sf t).1).1 from rfl]
      exact ih _ (psiA_step cfg F sf s nm w rest t hcfg hsH hpsi)
    | none =>
      rw [show (addAll cfg F sf ((nm, none) :: rest) t).1 =
        (addAll cfg F sf rest t).1 from rfl]
      exact ih _ (psiA_skip F s nm rest t hpsi)

theorem psiR_step (cfg : List BarConfig) (sf : ℚ) (F : ConfigOutputs) (w : Nat)
    (R : List Nat) (t : Outputs)
    (hpsi : PsiR F (w :: R) t) : PsiR F R (remove cfg w sf t).1 := by
  obtain ⟨r1, r2, r3, r4⟩ := hpsi
  cases h1 : removeAt? t.entries (fun e => e.output == some w) with
  | none =>
    have hid : (remove cfg w sf t).1 = t := by
      simp [remove, h1]
    rw [hid]
    have hnone := removeAt?_none h1
    have hno_w : ∀ e ∈ t.entries, e.output ≠ some w := by
      intro e he hc
      have h0 := hnone e he
      rw [hc] at h0
      simp at h0
    refine ⟨r1, r2, ?_, ?_⟩
    · intro e he hsome hum hne
      obtain ⟨h2, hh2, heo⟩ := r3 e he hsome hum hne
      rcases List.mem_cons.mp hh2 with heq | hmem
      · exfalso
        subst heq
        exact hno_w e he heo
      · exact ⟨h2, hmem, heo⟩
    · intro h2 hh2 e he heo
      exact r4 h2 (List.mem_cons_of_mem _ hh2) e he heo
  | some pr =>
    rcases pr with ⟨old, rest⟩
    obtain ⟨hp, hperm⟩ := removeAt?_some h1
    have holdout : old.output = some w := by simpa using hp
    have holdmem : old ∈ t.entries := hperm.symm.subset (List.mem_cons_self _ _)
    have hrestmem : ∀ e ∈ rest, e ∈ t.entries := fun e he =>
      hperm.symm.subset (List.mem_cons_of_mem _ he)
    have hum_old : name_in_config old.name F = false :=
      r4 w (List.mem_cons_self _ _) old holdmem holdout
    have hhperm : (t.entries.filterMap Entry.output) ~
        w :: rest.filterMap Entry.output := by
      have h0 := hperm.filterMap Entry.output
      rw [show (old :: rest).filterMap Entry.output =
        w :: rest.filterMap Entry.output from by
          simp only [List.filterMap_cons, holdout]] at h0
      exact h0
    have hhodup1 : (w :: rest.filterMap Entry.output).Nodup := hhperm.nodup r1
    have hw_notin : w ∉ rest.filterMap Entry.output := (List.nodup_cons.mp hhodup1).1
    have hhodup_rest : (rest.filterMap Entry.output).Nodup :=
      (List.nodup_cons.mp hhodup1).2
    have hent1_handles : ((rest ++ [Entry.mk old.name [] old.output]).filterMap
        Entry.output).Nodup := by
      rw [List.filterMap_append]
      rw [show ([Entry.mk old.name [] old.output].filterMap Entry.output) = [w] from by
        simp only [List.filterMap_cons, List.filterMap_nil, holdout]]
      refine List.Nodup.append hhodup_rest (List.nodup_singleton _) ?_
      intro a ha hb
      rw [List.mem_singleton] at hb
      subst hb
      exact hw_notin ha
    have hmem1 : ∀ e ∈ rest ++ [Entry.mk old.name [] old.output],
        e ∈ rest ∨ e = Entry.mk old.name [] old.output := by
      intro e he
      rcases List.mem_append.mp he with h | h
      · exact Or.inl h
      · exact Or.inr (List.mem_singleton.mp h)
    have hr3rest : ∀ e ∈ rest, e.output.isSome = true → name_in_config e.name F = false →
        e.infos ≠ [] → ∃ h2 ∈ R, e.output = some h2 := by
      intro e he hsome hum hne
      obtain ⟨h2, hh2, heo⟩ := r3 e (hrestmem e he) hsome hum hne
      rcases List.mem_cons.mp hh2 with heq | hmem
      · exfalso
        subst heq
        exact hw_notin (List.mem_filterMap.mpr ⟨e, he, heo⟩)
      · exact ⟨h2, hmem, heo⟩
    have hr4ent1 : ∀ h2 ∈ R, ∀ e ∈ rest ++ [Entry.mk old.name [] old.output],
        e.output = some h2 → name_in_config e.name F = false := by
      intro h2 hh2 e he heo
      rcases hmem1 e he with h | h
      · exact r4 h2 (List.mem_cons_of_mem _ hh2) e (hrestmem e h) heo
      · subst h
        exact hum_old
    cases h2c : (rest ++ [Entry.mk old.name [] old.output]).any
        (fun e => !e.infos.isEmpty) with
    | true =>
      have hent : (remove cfg w sf t).1.entries =
          rest ++ [Entry.mk old.name [] old.output] := by
        simp [remove, h1, h2c]
      refine ⟨?_, ?_, ?_, ?_⟩
      · rw [hent]
        exact hent1_handles
      · intro e he hsome hmatch
        rw [hent] at he
        rcases hmem1 e he with h | h
        · exact r2 e (hrestmem e h) hsome hmatch
        · exfalso
          subst h
          rw [show (Entry.mk old.name [] old.output).name = old.name from rfl,
            hum_old] at hmatch
          exact Bool.noConfusion hmatch
      · intro e he hsome hum hne
        rw [hent] at he
        rcases hmem1 e he with h | h
        · exact hr3rest e h hsome hum hne
        · exfalso
          subst h
          exact hne rfl
      · intro h2 hh2 e he heo
        rw [hent] at he
        exact hr4ent1 h2 hh2 e he heo
    | false =>
      have hent : (remove cfg w sf t).1.entries =
          (rest ++ [Entry.mk old.name [] old.output]) ++
            [Entry.mk fallbackName (create_output_layers none cfg sf t.next).1 none] := by
        simp [remove, h1, h2c]
      have hmem2 : ∀ e ∈ (rest ++ [Entry.mk old.name [] old.output]) ++
          [Entry.mk fallbackName (create_output_layers none cfg sf t.next).1 none],
          (e ∈ rest ∨ e = Entry.mk old.name [] old.output) ∨
            e = Entry.mk fallbackName (create_output_layers none cfg sf t.next).1 none := by
        intro e he
        rcases List.mem_append.mp he with h | h
        · exact Or.inl (hmem1 e h)
        · exact Or.inr (List.mem_singleton.mp h)
      refine ⟨?_, ?_, ?_, ?_⟩
      · rw [hent, List.filterMap_append]
        rw [show ([Entry.mk fallbackName (create_output_layers none cfg sf t.next).1
          none].filterMap Entry.output) = [] from rfl, List.append_nil]
        exact hent1_handles
      · intro e he hsome hmatch
        rw [hent] at he
        rcases hmem2 e he with (h | h) | h
        · exact r2 e (hrestmem e h) hsome hmatch
        · exfalso
          subst h
          rw [show (Entry.mk old.name [] old.output).name = old.name from rfl,
            hum_old] at hmatch
          exact Bool.noConfusion hmatch
        · exfalso
          subst h
          exact Bool.noConfusion hsome
      · intro e he hsome hum hne
        rw [hent] at he
        rcases hmem2 e he with (h | h) | h
        · exact hr3rest e h hsome hum hne
        · exfalso
          subst h
          exact hne rfl
        · exfalso
          subst h
          exact Bool.noConfusion hsome
      · intro h2 hh2 e he heo
        rw [hent] at he
        rcases hmem2 e he with h | h
        · exact hr4ent1 h2 hh2 e (List.mem_append.mpr (by
            rcases h with h | h
            · exact Or.inl h
            · exact Or.inr (List.mem_singleton.mpr h))) heo
        · exfalso
          subst h
          exact Option.noConfusion heo

theorem removeAll_psiR (cfg : List BarConfig) (sf : ℚ) (F : ConfigOutputs) :
    ∀ (R : List Nat) (t : Outputs), PsiR F R t → PsiR F [] (removeAll cfg sf R t).1 := by
  intro R
  induction R with
  | nil =>
    intro t h
    exact h
  | cons w rest ih =>
    intro t hpsi
    rw [show (removeAll cfg sf (w :: rest) t).1 =
      (removeAll cfg sf rest (remove cfg w sf t).1).1 from rfl]
    exact ih _ (psiR_step cfg sf F w rest t hpsi)

theorem settled_of_psiR (F : ConfigOutputs) (t : Outputs) (hpsi : PsiR F [] t) :
    ∀ e ∈ t.entries, settled F e := by
  obtain ⟨-, r2, r3, -⟩ := hpsi
  intro e he hsome
  constructor
  · intro hm
    exact r2 e he hsome hm
  · intro hne
    by_contra hum
    have hum2 : name_in_config e.name F = false := by
      cases hc : name_in_config e.name F
      · rfl
      · exact absurd hc hum
    obtain ⟨h2, hh2, -⟩ := r3 e he hsome hum2 hne
    simp at hh2

theorem psiA_init (F : ConfigOutputs) (s : Outputs)
    (hnames : (s.entries.map Entry.name).Nodup)
    (hhandles : (s.entries.filterMap Entry.output).Nodup) :
    PsiA F s (toAddList F s) s := by
  refine ⟨hnames, hhandles, ?_, ?_, ?_, ?_, ?_, ?_, ?_⟩
  · intro e he h2 heo
    exact ⟨e, he, rfl, heo⟩
  · intro e he hsome hmatch hempty
    unfold toAddList
    refine List.mem_filterMap.mpr ⟨e, he, ?_⟩
    have hie : e.infos.isEmpty = true := by
      rw [hempty]
      rfl
    rw [hmatch, hie]
    rfl
  · intro e he _
    exact he
  · intro p hp
    unfold toAddList at hp
    obtain ⟨e, he, heq⟩ := List.mem_filterMap.mp hp
    split at heq
    next hcond =>
      injection heq with heq2
      subst heq2
      have hm1 : name_in_config e.name F = true := by
        cases hc : name_in_config e.name F
        · exfalso
          rw [hc] at hcond
          simp at hcond
        · rfl
      exact hm1
    next => exact absurd heq (by simp)
  · have hsl := filterMap_guard_fst_sublist s.entries
      (fun e => name_in_config e.name F && e.infos.isEmpty)
    exact List.Nodup.sublist hsl hnames
  · intro p hp h2 hp2 e he hen
    unfold toAddList at hp
    obtain ⟨e1, he1, heq⟩ := List.mem_filterMap.mp hp
    split at heq
    next hcond =>
      injection heq with heq2
      subst heq2
      have hee := name_unique hnames e he e1 he1 hen
      rw [hee]
      exact hp2
    next => exact absurd heq (by simp)
  · intro p hp h2 hp2
    unfold toAddList at hp
    obtain ⟨e1, he1, heq⟩ := List.mem_filterMap.mp hp
    split at heq
    next hcond =>
      injection heq with heq2
      subst heq2
      exact ⟨e1, he1, rfl, hp2⟩
    next => exact absurd heq (by simp)

theorem psiR_init (cfg : List BarConfig) (F : ConfigOutputs) (sf : ℚ) (s : Outputs)
    (hnames : (s.entries.map Entry.name).Nodup)
    (hhandles : (s.entries.filterMap Entry.output).Nodup)
    (hcfg : cfg ≠ []) :
    PsiR F (toRemoveList F s) (addAll cfg F sf (toAddList F s) s).1 := by
  have hpsi := addAll_psiA cfg F sf s hcfg hhandles (toAddList F s) s
    (psiA_init F s hnames hhandles)
  obtain ⟨a1, a2, a3, a4, a5, -, -, -, -⟩ := hpsi
  refine ⟨a2, ?_, ?_, ?_⟩
  · intro e he hsome hmatch
    intro hc
    have h0 := a4 e he hsome hmatch hc
    simp at h0
  · intro e he hsome hum hne
    have hes : e ∈ s.entries := a5 e he hum
    cases heo : e.output with
    | none =>
      exfalso
      rw [heo] at hsome
      exact Bool.noConfusion hsome
    | some h2 =>
      refine ⟨h2, ?_, rfl⟩
      unfold toRemoveList
      refine List.mem_filterMap.mpr ⟨e, hes, ?_⟩
      have hie : e.infos.isEmpty = false := List.isEmpty_eq_false.mpr hne
      rw [hum, hie]
      exact heo
  · intro h2 hh2 e he heo
    unfold toRemoveList at hh2
    obtain ⟨e1, he1, heq⟩ := List.mem_filterMap.mp hh2
    split at heq
    next hcond =>
      have hum1 : name_in_config e1.name F = false := by
        cases hc : name_in_config e1.name F
        · rfl
        · exfalso
          rw [hc] at hcond
          simp at hcond
      obtain ⟨e0, he0, he0n, he0o⟩ := a3 e he h2 heo
      have hee := handle_unique hhandles e0 he0 e1 he1 h2 he0o heq
      rw [← he0n, hee]
      exact hum1
    next => exact absurd heq (by simp)

theorem sync_establishes (cfg : List BarConfig) (F : ConfigOutputs) (sf : ℚ)
    (s : Outputs)
    (hnames : (s.entries.map Entry.name).Nodup)
    (hhandles : (s.entries.filterMap Entry.output).Nodup)
    (hcfg : cfg ≠ []) :
    ∀ e ∈ (sync cfg F sf s).1.entries, settled F e ∧ cfgSynced cfg sf e := by
  have hpsiR := psiR_init cfg F sf s hnames hhandles hcfg
  have hpsiR2 := removeAll_psiR cfg sf F (toRemoveList F s)
    (addAll cfg F sf (toAddList F s) s).1 hpsiR
  have hsettled := settled_of_psiR F _ hpsiR2
  intro e he
  have hent : (sync cfg F sf s).1.entries = (inPlace cfg sf (removeAll cfg sf
      (toRemoveList F s) (addAll cfg F sf (toAddList F s) s).1).1).1.entries := rfl
  rw [hent] at he
  constructor
  · obtain ⟨-, -, i3⟩ := inPlace_facts cfg sf (removeAll cfg sf (toRemoveList F s)
      (addAll cfg F sf (toAddList F s) s).1).1.entries
    exact settled_of_struct i3 hsettled e he
  · exact inPlace_establishes cfg sf _ e he

theorem sync_fixed (cfg : List BarConfig) (F : ConfigOutputs) (sf : ℚ) (t : Outputs)
    (hsettled : ∀ e ∈ t.entries, settled F e)
    (hsynced : ∀ e ∈ t.entries, cfgSynced cfg sf e) :
    sync cfg F sf t = (t, []) := by
  have hTA : ∀ p ∈ toAddList F t, p.2 = none := by
    intro p hp
    unfold toAddList at hp
    obtain ⟨e, he, heq⟩ := List.mem_filterMap.mp hp
    split at heq
    next hcond =>
      injection heq with heq2
      subst heq2
      have hm : name_in_config e.name F = true := by
        cases hc : name_in_config e.name F
        · exfalso
          rw [hc] at hcond
          simp at hcond
        · rfl
      have hie : e.infos = [] := by
        have h0 : e.infos.isEmpty = true := by
          cases hc : e.infos.isEmpty
          · exfalso
            rw [hc] at hcond
            simp at hcond
          · rfl
        simpa using h0
      show e.output = none
      cases heo : e.output with
      | none => rfl
      | some h2 =>
        exfalso
        have hsome : e.output.isSome = true := by
          rw [heo]
          rfl
        exact (hsettled e he hsome).mp hm hie
    next => exact absurd heq (by simp)
  have hA : addAll cfg F sf (toAddList F t) t = (t, []) := addAll_skip cfg F sf _ t hTA
  have hR : toRemoveList F t = [] := by
    unfold toRemoveList
    rw [List.filterMap_eq_nil_iff]
    intro e he
    split
    next hcond =>
      have hum : name_in_config e.name F = false := by
        cases hc : name_in_config e.name F
        · rfl
        · exfalso
          rw [hc] at hcond
          simp at hcond
      have hne : e.infos.isEmpty = false := by
        cases hc : e.infos.isEmpty
        · rfl
        · exfalso
          rw [hc] at hcond
          simp at hcond
      cases heo : e.output with
      | none => rfl
      | some h2 =>
        exfalso
        have hsome : e.output.isSome = true := by
          rw [heo]
          rfl
        have hnel : e.infos ≠ [] := by
          intro hc2
          rw [hc2] at hne
          simp at hne
        have hm2 := (hsettled e he hsome).mpr hnel
        rw [hm2] at hum
        exact Bool.noConfusion hum
    next => rfl
  have hI : inPlace cfg sf t = (t, []) := inPlace_id cfg sf t hsynced
  rw [sync_decompose, hR, hA]
  simp [removeAll, hI]

/-- Claim C6 (amended): on a registry whose entry names are pairwise
distinct and whose display handles are pairwise distinct, with a non-empty
bar-configuration list, calling sync twice with the same configurations,
filter, and scale factor makes the second call issue no requests at all (in
particular no destroy and no surface-creation requests) and leave the state
produced by the first call unchanged. -/
theorem C6_sync_idempotent (cfg : List BarConfig) (F : ConfigOutputs) (sf : ℚ)
    (s : Outputs)
    (hnames : (s.entries.map Entry.name).Nodup)
    (hhandles : (s.entries.filterMap Entry.output).Nodup)
    (hcfg : cfg ≠ []) :
    sync cfg F sf (sync cfg F sf s).1 = ((sync cfg F sf s).1, []) := by
  have h := sync_establishes cfg F sf s hnames hhandles hcfg
  exact sync_fixed cfg F sf _ (fun e he => (h e he).1) (fun e he => (h e he).2)

/-- Witness for C6_sync_idempotent: a second sync on the fresh one-bar
registry with the eDP filter is the identity and issues no requests. -/
theorem C6_sync_idempotent_witness :
    sync [cfgA] filterE 1 (sync [cfgA] filterE 1 (Outputs.new [cfgA] 1).1).1 =
      ((sync [cfgA] filterE 1 (Outputs.new [cfgA] 1).1).1, []) :=
  C6_sync_idempotent [cfgA] filterE 1 (Outputs.new [cfgA] 1).1
    (by decide) (by decide) (by decide)

end Ashell
